import Mathlib

/-!
Verification development for the photoscript backend's block-ordering,
block-lifecycle and asset-matching core.

The Lean definitions below are a shallow embedding of the Python sources:

* `app/services/block_service.py`   (BlockService)
* `app/services/asset_service.py`   (AssetService)
* `app/services/matcher.py`         (calculate_relevance_score, deduplicate_by_url,
                                     match_assets_for_block)
* `app/routers/blocks.py`           (the update endpoint)

Modelling conventions:

* A database is a pair of row lists (`blocks`, `block_assets`).  Row ids stand
  for the UUID primary keys; fresh ids are passed in explicitly where the
  database would generate one.  Timestamps are not modelled (no claim uses
  them), and unread asset metadata columns (provider, thumbnail_url, license,
  meta) are omitted because none of the modelled functions read them.
* `BlockService` in `src` still uses the integer `index` column with
  shift-on-insert/delete semantics; the embedding follows that code, with
  `index : Int`.
* Python strings are `List Char`; `str.strip()` is `pyStrip` (ASCII whitespace,
  which is all that the claims exercise); `str.lower()` is a character-wise
  `Char.toLower`; the Python `in` substring test is `substrAt`.
* Float scores are modelled as `ℚ`; every score the matcher can produce is a
  sum of 1.0, 0.5, 0.3, 0.1, and the claims only depend on the induced order,
  not on binary rounding.
* An operation that can raise returns a result value carrying the database
  state at the moment control leaves the function: `ok` with the state after
  the final commit, `err` with the state at the raise.  In the translated
  code every raise happens before the first mutation, so the `err` branches
  return the input state unchanged, which is what the sources do (no partial
  commit precedes a raise).
* The relational table has no observable row order: every read path either
  filters on the primary key or sorts by `index`/`score`.  Where the code
  rewrites all rows of one project (reindex), the embedding re-appends the
  renumbered project rows after the untouched rows of other projects.
-/

/-- BlockStatus constants from `app/models/block.py`. -/
inductive BlockStatus where
  | DRAFT
  | PENDING
  | MATCHED
  | NO_RESULT
  | CUSTOM
deriving DecidableEq, Repr

/-- ChosenBy constants from `app/models/block_asset.py`. -/
inductive ChosenBy where
  | AUTO
  | USER
deriving DecidableEq, Repr

/-- A row of the `blocks` table.  `id` is the primary key (unique by
construction in the database); `index` is the integer position column used by
`BlockService`. -/
structure Block where
  id : Nat
  projectId : Nat
  index : Int
  text : List Char
  keywords : List String
  status : BlockStatus
deriving DecidableEq, Repr

/-- A row of the `block_assets` link table, from `app/models/block_asset.py`. -/
structure BlockAsset where
  id : Nat
  blockId : Nat
  assetId : Nat
  score : ℚ
  is_primary : Bool
  chosen_by : ChosenBy
deriving DecidableEq, Repr

/-- The database state visible to the block/asset services. -/
structure DB where
  blocks : List Block
  blockAssets : List BlockAsset
deriving DecidableEq, Repr

/-- Error kinds raised by the translated code (`app/errors.py`, plus the
IndexError Python would raise on `blocks[0]` of an empty list). -/
inductive ErrKind where
  | blockNotFoundError
  | blockSplitError
  | blockMergeError
  | assetNotFoundError
  | indexError
deriving DecidableEq, Repr

/-- Python `str` truthiness/whitespace helper: the ASCII characters stripped
by `str.strip()`. -/
def pySpace (c : Char) : Bool :=
  c == ' ' || c == '\t' || c == '\n' || c == '\r' || c.toNat == 11 || c.toNat == 12

/-- Python `str.strip()` on a character list. -/
def pyStrip (l : List Char) : List Char :=
  ((l.dropWhile pySpace).reverse.dropWhile pySpace).reverse

/-- Query: all blocks of one project (`Block.project_id == project_id`). -/
def projBlocks (db : DB) (pid : Nat) : List Block :=
  db.blocks.filter (fun (b : Block) => b.projectId == pid)

/-- Query: the block with a given primary key (`Block.id == block_id`). -/
def blockById (db : DB) (bid : Nat) : Option Block :=
  db.blocks.find? (fun (b : Block) => b.id == bid)

/-- Query: all BlockAsset rows linked to one block. -/
def assetsOf (db : DB) (bid : Nat) : List BlockAsset :=
  db.blockAssets.filter (fun (ba : BlockAsset) => ba.blockId == bid)

/-- The `ORDER BY blocks.index` comparison. -/
def blkLe (a b : Block) : Prop := a.index ≤ b.index

instance : DecidableRel blkLe := fun a b => inferInstanceAs (Decidable (a.index ≤ b.index))

instance : IsTotal Block blkLe := ⟨fun a b => Int.le_total a.index b.index⟩

instance : IsTrans Block blkLe := ⟨fun _ _ _ h1 h2 => le_trans h1 h2⟩

/-- Project blocks sorted by `index` (the `order_by(Block.index)` queries). -/
def projBlocksSorted (db : DB) (pid : Nat) : List Block :=
  List.insertionSort blkLe (projBlocks db pid)

/-- Model of `AssetService.delete_block_assets`: delete every BlockAsset row of a
block.  (The Python function also returns the deleted count, which no claim
uses.) -/
def delete_block_assets (db : DB) (bid : Nat) : DB :=
  { db with blockAssets := db.blockAssets.filter (fun (ba : BlockAsset) => !(ba.blockId == bid)) }

/-- Result of `BlockService.create_block` (it cannot raise). -/
structure CreateRes where
  db : DB
  newBlock : Block
deriving DecidableEq, Repr

/-- Model of `BlockService.create_block`: shift every block of the project with
`index >= insert_at` up by one, then insert the new block at `insert_at` with
status DRAFT.  `newId` is the fresh primary key the database generates. -/
def create_block (db : DB) (projectId : Nat) (newId : Nat) (text : List Char)
    (keywords : List String) (insert_at : Int) : CreateRes :=
  let shifted := db.blocks.map (fun (b : Block) =>
    if b.projectId == projectId && insert_at ≤ b.index then
      { b with index := b.index + 1 } else b)
  let nb : Block := { id := newId, projectId := projectId, index := insert_at,
                      text := text, keywords := keywords, status := BlockStatus.DRAFT }
  { db := { db with blocks := shifted ++ [nb] }, newBlock := nb }

/-- Result of an operation returning nothing on success. -/
inductive OpRes where
  | ok (db : DB)
  | err (db : DB) (k : ErrKind)
deriving DecidableEq, Repr

/-- Result of an operation returning one block. -/
inductive BlockRes where
  | ok (db : DB) (b : Block)
  | err (db : DB) (k : ErrKind)
deriving DecidableEq, Repr

/-- Result of `split_block`. -/
inductive SplitRes where
  | ok (db : DB) (b1 b2 : Block)
  | err (db : DB) (k : ErrKind)
deriving DecidableEq, Repr

/-- Result of `merge_blocks`; `ok` carries the surviving block's id. -/
inductive MergeRes where
  | ok (db : DB) (survivorId : Nat)
  | err (db : DB) (k : ErrKind)
deriving DecidableEq, Repr

/-- Result of `set_primary_asset`. -/
inductive AssetRes where
  | ok (db : DB) (ba : BlockAsset)
  | err (db : DB) (k : ErrKind)
deriving DecidableEq, Repr

/-- Model of `BlockService.delete_block`: delete the block's asset links, delete the
row, then shift every later block of the project down by one. -/
def delete_block (db : DB) (bid : Nat) : OpRes :=
  match blockById db bid with
  | none => .err db .blockNotFoundError
  | some blk =>
    let db1 := delete_block_assets db bid
    let db2 := { db1 with blocks := db1.blocks.eraseP (fun (b : Block) => b.id == bid) }
    let db3 := { db2 with blocks := db2.blocks.map (fun (b : Block) =>
      if b.projectId == blk.projectId && blk.index < b.index then
        { b with index := b.index - 1 } else b) }
    .ok db3

/-- Model of `BlockService.update_block`: overwrite `text`/`keywords` when supplied,
set status to DRAFT, delete all asset links.  (`id` is the primary key, so at
most one row matches the update.) -/
def update_block (db : DB) (bid : Nat) (text? : Option (List Char))
    (keywords? : Option (List String)) : BlockRes :=
  match blockById db bid with
  | none => .err db .blockNotFoundError
  | some blk =>
    let t := match text? with | some t => t | none => blk.text
    let ks := match keywords? with | some ks => ks | none => blk.keywords
    let nb := { blk with text := t, keywords := ks, status := BlockStatus.DRAFT }
    let db1 := { db with blocks := db.blocks.map (fun (b : Block) => if b.id == bid then nb else b) }
    .ok (delete_block_assets db1 bid) nb

/-- The PUT `/blocks/{id}` router handler (`app/routers/blocks.py`,
`update_block`): same mutation as the service method, performed inline. -/
def routers_update_block (db : DB) (bid : Nat) (text? : Option (List Char))
    (keywords? : Option (List String)) : BlockRes :=
  match blockById db bid with
  | none => .err db .blockNotFoundError
  | some blk =>
    let t := match text? with | some t => t | none => blk.text
    let ks := match keywords? with | some ks => ks | none => blk.keywords
    let nb := { blk with text := t, keywords := ks, status := BlockStatus.DRAFT }
    let db1 := { db with blocks := db.blocks.map (fun (b : Block) => if b.id == bid then nb else b) }
    .ok (delete_block_assets db1 bid) nb

/-- Model of `BlockService.update_block_text`. -/
def update_block_text (db : DB) (bid : Nat) (text : List Char) : BlockRes :=
  match blockById db bid with
  | none => .err db .blockNotFoundError
  | some blk =>
    let nb := { blk with text := text, status := BlockStatus.DRAFT }
    let db1 := { db with blocks := db.blocks.map (fun (b : Block) => if b.id == bid then nb else b) }
    .ok (delete_block_assets db1 bid) nb

/-- Model of `BlockService.update_block_keywords`. -/
def update_block_keywords (db : DB) (bid : Nat) (keywords : List String) : BlockRes :=
  match blockById db bid with
  | none => .err db .blockNotFoundError
  | some blk =>
    let nb := { blk with keywords := keywords, status := BlockStatus.DRAFT }
    let db1 := { db with blocks := db.blocks.map (fun (b : Block) => if b.id == bid then nb else b) }
    .ok (delete_block_assets db1 bid) nb

/-- Model of `BlockService.split_block`: validate the position, strip the two halves,
reject empty halves, delete the original block's asset links, truncate the
first block's keywords, create the second block, and shift later blocks up.
Note the Python code reassigns `block.keywords` to the first three keywords
and only afterwards evaluates `block.keywords[3:] if ... len(block.keywords) > 3`
against that already-truncated list, which the embedding reproduces. -/
def split_block (db : DB) (bid : Nat) (split_position : Int) (newId : Nat) : SplitRes :=
  match blockById db bid with
  | none => .err db .blockNotFoundError
  | some blk =>
    let text := blk.text
    let position := split_position
    if position ≤ 0 || (text.length : Int) ≤ position then .err db .blockSplitError
    else
      let first_text := pyStrip (text.take position.toNat)
      let second_text := pyStrip (text.drop position.toNat)
      if first_text.isEmpty || second_text.isEmpty then .err db .blockSplitError
      else
        let db1 := delete_block_assets db bid
        let b1 := { blk with
                    text := first_text,
                    keywords := if blk.keywords.isEmpty then [] else blk.keywords.take 3,
                    status := BlockStatus.DRAFT }
        let kw1 := b1.keywords
        let b2 : Block := { id := newId, projectId := blk.projectId, index := blk.index + 1,
                            text := second_text,
                            keywords := if !kw1.isEmpty && 3 < kw1.length then kw1.drop 3 else [],
                            status := BlockStatus.DRAFT }
        let db2 := { db1 with blocks :=
          (db1.blocks.map (fun (b : Block) => if b.id == bid then b1 else b)) ++ [b2] }
        let db3 := { db2 with blocks := db2.blocks.map (fun (b : Block) =>
          if b.projectId == blk.projectId && blk.index < b.index && b.id != newId then
            { b with index := b.index + 1 } else b) }
        .ok db3 b1 b2

/-- The adjacency loop of `merge_blocks`: each consecutive pair of sorted
indices must differ by exactly 1. -/
def adjacentChain : List Int → Bool
  | [] => true
  | [_] => true
  | a :: b :: t => (b - a == 1) && adjacentChain (b :: t)

/-- The `merge_blocks` query: blocks of the project whose id is in the request,
ordered by `index`. -/
def mergeFound (db : DB) (pid : Nat) (ids : List Nat) : List Block :=
  List.insertionSort blkLe (db.blocks.filter (fun (b : Block) => b.projectId == pid && ids.contains b.id))

/-- The keyword-union loop of `merge_blocks`: keywords in first-seen order,
duplicates skipped. -/
def firstSeenUnion (ls : List (List String)) : List String :=
  ls.foldl (fun acc kws => kws.foldl (fun acc2 kw => if kw ∈ acc2 then acc2 else acc2 ++ [kw]) acc) []

/-- Python `"\n\n".join`. -/
def joinBlankLine (ts : List (List Char)) : List Char :=
  List.intercalate ('\n' :: '\n' :: []) ts

/-- Positional renumbering from a starting counter: the enumerate loop
`block.index = new_idx`. -/
def assignIdxFrom (n : Nat) : List Block → List Block
  | [] => []
  | b :: t => { b with index := (n : Int) } :: assignIdxFrom (n + 1) t

/-- Positional renumbering: the enumerate loop `block.index = new_idx`. -/
def assignIdx (l : List Block) : List Block := assignIdxFrom 0 l

/-- The reindex pass shared by `merge_blocks` and `reindex_blocks`: renumber
all blocks of the project 0,1,2,... in their current `index` order.  Row
storage order is unobservable, so the renumbered project rows are re-appended
after the untouched rows of other projects. -/
def reindexProject (db : DB) (pid : Nat) : DB :=
  { db with blocks := db.blocks.filter (fun (b : Block) => !(b.projectId == pid))
      ++ assignIdx (projBlocksSorted db pid) }

/-- Model of `BlockService.reindex_blocks`: reindex the project and return its blocks
in order. -/
def reindex_blocks (db : DB) (pid : Nat) : DB × List Block :=
  (reindexProject db pid, assignIdx (projBlocksSorted db pid))

/-- The surviving block after a merge: the earliest block, its text replaced
by the blank-line join, keywords by the capped first-seen union, status set
to DRAFT. -/
def mergeSurvivor (first : Block) (rest : List Block) : Block :=
  { first with
    text := joinBlankLine ((first :: rest).map (fun (b : Block) => b.text)),
    keywords := (firstSeenUnion ((first :: rest).map (fun (b : Block) => b.keywords))).take 10,
    status := BlockStatus.DRAFT }

/-- The row mutations of `merge_blocks` before the final reindex: delete the
asset links of the absorbed blocks, delete their rows, and rewrite the
surviving row (rows are addressed by primary key). -/
def mergeApply (db : DB) (first : Block) (rest : List Block) : DB :=
  { blocks := db.blocks.filterMap (fun (b : Block) =>
      if (rest.map (fun (r : Block) => r.id)).contains b.id then none
      else if b.id == first.id then some (mergeSurvivor first rest) else some b),
    blockAssets := db.blockAssets.filter (fun (ba : BlockAsset) =>
      !((rest.map (fun (r : Block) => r.id)).contains ba.blockId)) }

/-- Model of `BlockService.merge_blocks`: fetch and sort the requested blocks, reject a
count mismatch or a non-adjacent index chain, join texts with a blank line,
union keywords (capped at 10), keep the first block, delete the rest together
with their asset links, and reindex the project. -/
def merge_blocks (db : DB) (pid : Nat) (ids : List Nat) : MergeRes :=
  let blocks := mergeFound db pid ids
  if blocks.length != ids.length then .err db .blockMergeError
  else if !(adjacentChain (blocks.map (fun (b : Block) => b.index))) then .err db .blockMergeError
  else
    match blocks with
    | [] => .err db .indexError
    | first :: rest => .ok (reindexProject (mergeApply db first rest) pid) first.id

/-- The bulk UPDATE inside `set_primary_asset`: clear a row when it is a
primary link of the block, reverting `chosen_by` to AUTO. -/
def spClear (bid : Nat) (ba : BlockAsset) : BlockAsset :=
  if ba.blockId == bid && ba.is_primary then
    { ba with is_primary := false, chosen_by := ChosenBy.AUTO } else ba

/-- The second UPDATE of `set_primary_asset`: mark the target row (identified
by its primary key) primary with `chosen_by = USER`. -/
def spSet (tid : Nat) (ba : BlockAsset) : BlockAsset :=
  if ba.id == tid then
    { ba with is_primary := true, chosen_by := ChosenBy.USER } else ba

/-- Model of `AssetService.set_primary_asset`: locate the link by (block, asset); if
absent raise AssetNotFoundError; otherwise clear every primary link of the
block (reverting `chosen_by` to AUTO) and mark the target primary with
`chosen_by = USER`. -/
def set_primary_asset (db : DB) (bid aid : Nat) : AssetRes :=
  match db.blockAssets.find? (fun (ba : BlockAsset) => ba.blockId == bid && ba.assetId == aid) with
  | none => .err db .assetNotFoundError
  | some target =>
    let s1 := db.blockAssets.map (spClear bid)
    let s2 := s1.map (spSet target.id)
    .ok { db with blockAssets := s2 } { target with is_primary := true, chosen_by := ChosenBy.USER }

/-- A stock-media candidate as produced by the Pexels client and consumed by
the matcher; only the fields the matcher reads are modelled. -/
structure PAsset where
  asset_type : String
  source_url : String
  title : String
  score : ℚ
  matched_keyword : String
deriving DecidableEq, Repr

/-- Python `str.lower()` on a string, as a character list. -/
def lowerL (s : String) : List Char := s.toList.map Char.toLower

/-- Python substring test (`needle in haystack`). -/
def substrAt : List Char → List Char → Bool
  | needle, [] => needle.isEmpty
  | needle, c :: t => needle.isPrefixOf (c :: t) || substrAt needle t

/-- Model of `matcher.calculate_relevance_score`: base 1.0, +0.5 for a case-insensitive
title hit, then +0.3 for a video under video priority, else +0.1 for an image
without video priority. -/
def calculate_relevance_score (keyword : String) (asset : PAsset) (video_priority : Bool) : ℚ :=
  let score : ℚ := 1
  let title := lowerL asset.title
  let score := if substrAt (lowerL keyword) title then score + 1/2 else score
  let score :=
    if video_priority then
      if asset.asset_type == "VIDEO" then score + 3/10 else score
    else
      if asset.asset_type == "IMAGE" then score + 1/10 else score
  score

/-- Worker for `deduplicate_by_url`, carrying the `seen_urls` set. -/
def dedupGo (seen : List String) : List PAsset → List PAsset
  | [] => []
  | a :: rest =>
    if a.source_url != "" && !(seen.contains a.source_url) then
      a :: dedupGo (a.source_url :: seen) rest
    else dedupGo seen rest

/-- Model of `matcher.deduplicate_by_url`: keep the first candidate for each non-empty
`source_url`; candidates with an empty url are dropped (Python truthiness). -/
def deduplicate_by_url (assets : List PAsset) : List PAsset :=
  dedupGo [] assets

/-- The per-candidate tagging done inside the search loops: assign the
relevance score and the matched keyword. -/
def tagAsset (kw : String) (vp : Bool) (a : PAsset) : PAsset :=
  { a with score := calculate_relevance_score kw a vp, matched_keyword := kw }

/-- The pooling loops of `match_assets_for_block`.  `photos kw` and
`videos kw` stand for what the Pexels client returned for one keyword (the
per_page counts live inside the client call). Under video priority videos are
fetched first, otherwise photos first. -/
def pooled (keywords : List String) (photos videos : String → List PAsset)
    (video_priority : Bool) : List PAsset :=
  if video_priority then
    keywords.flatMap (fun kw => (videos kw).map (tagAsset kw true) ++ (photos kw).map (tagAsset kw true))
  else
    keywords.flatMap (fun kw => (photos kw).map (tagAsset kw false) ++ (videos kw).map (tagAsset kw false))

/-- The Python `sorted(..., key=score, reverse=True)` comparison. -/
def scoreGe (a b : PAsset) : Prop := b.score ≤ a.score

instance : DecidableRel scoreGe := fun a b => inferInstanceAs (Decidable (b.score ≤ a.score))

instance : IsTotal PAsset scoreGe := ⟨fun a b => le_total b.score a.score⟩

instance : IsTrans PAsset scoreGe := ⟨fun _ _ _ h1 h2 => le_trans h2 h1⟩

/-- Model of `matcher.match_assets_for_block`: pool the scored candidates over all
keywords, deduplicate by url, sort by score descending, truncate. -/
def match_assets_for_block (keywords : List String) (photos videos : String → List PAsset)
    (max_candidates : Nat) (video_priority : Bool) : List PAsset :=
  let all_assets := pooled keywords photos videos video_priority
  let unique_assets := deduplicate_by_url all_assets
  let sorted_assets := List.insertionSort scoreGe unique_assets
  sorted_assets.take max_candidates

/-! ## Supporting lemmas -/

/-- Updating the row with primary key `bid` makes it the lookup result. -/
theorem blockById_map_update (l : List Block) (bid : Nat) (nb : Block) (blk : Block)
    (hf : l.find? (fun (b : Block) => b.id == bid) = some blk) (hid : nb.id = bid) :
    (l.map (fun (b : Block) => if b.id == bid then nb else b)).find?
      (fun (b : Block) => b.id == bid) = some nb := by
  induction l with
  | nil => simp at hf
  | cons x t ih =>
    by_cases hx : x.id = bid
    · have hpos : ((fun (b : Block) => b.id == bid) (if x.id == bid then nb else x)) = true := by
        simp [hx, hid]
      simp only [List.map_cons]
      rw [@List.find?_cons_of_pos _ (fun (b : Block) => b.id == bid) _ _ hpos]
      simp [hx]
    · have hneg : ¬ ((fun (b : Block) => b.id == bid) x = true) := by simp [hx]
      rw [@List.find?_cons_of_neg _ (fun (b : Block) => b.id == bid) _ _ hneg] at hf
      have hneg2 : ¬ ((fun (b : Block) => b.id == bid) (if x.id == bid then nb else x) = true) := by
        simp [hx]
      simp only [List.map_cons]
      rw [@List.find?_cons_of_neg _ (fun (b : Block) => b.id == bid) _ _ hneg2]
      exact ih hf

/-- After `delete_block_assets`, the block's asset list is empty. -/
theorem assetsOf_delete_block_assets (db : DB) (bid : Nat) :
    assetsOf (delete_block_assets db bid) bid = [] := by
  simp [assetsOf, delete_block_assets, List.filter_filter]

/-- Deleting a block's asset links leaves the blocks table untouched. -/
theorem blocks_delete_block_assets (db : DB) (bid : Nat) :
    (delete_block_assets db bid).blocks = db.blocks := rfl

/-- Common shape of all four edit paths: after swapping in the edited row `nb`
and deleting the block's asset links, the asset list is empty and the lookup
returns `nb`. -/
theorem edit_path_common (db : DB) (bid : Nat) (blk nb : Block)
    (hb : blockById db bid = some blk) (hid : nb.id = bid) :
    assetsOf (delete_block_assets
      { db with blocks := db.blocks.map (fun (b : Block) => if b.id == bid then nb else b) } bid) bid = [] ∧
    blockById (delete_block_assets
      { db with blocks := db.blocks.map (fun (b : Block) => if b.id == bid then nb else b) } bid) bid = some nb := by
  refine ⟨assetsOf_delete_block_assets _ _, ?_⟩
  exact blockById_map_update db.blocks bid nb blk hb hid

/-- C2: after any edit of a block's text or keywords through any edit path
(the service `update_block`, the PUT router handler, `update_block_text`,
`update_block_keywords`), all BlockAsset rows linked to the block are deleted
and the block's status is DRAFT, regardless of its prior status or primary
asset. -/
theorem C2_edit_invalidation (db : DB) (bid : Nat) (blk : Block)
    (hb : blockById db bid = some blk)
    (text? : Option (List Char)) (keywords? : Option (List String))
    (tv : List Char) (kv : List String) :
    (∃ db1 b1, update_block db bid text? keywords? = .ok db1 b1 ∧
      assetsOf db1 bid = [] ∧ blockById db1 bid = some b1 ∧ b1.status = BlockStatus.DRAFT) ∧
    (∃ db2 b2, routers_update_block db bid text? keywords? = .ok db2 b2 ∧
      assetsOf db2 bid = [] ∧ blockById db2 bid = some b2 ∧ b2.status = BlockStatus.DRAFT) ∧
    (∃ db3 b3, update_block_text db bid tv = .ok db3 b3 ∧
      assetsOf db3 bid = [] ∧ blockById db3 bid = some b3 ∧ b3.status = BlockStatus.DRAFT) ∧
    (∃ db4 b4, update_block_keywords db bid kv = .ok db4 b4 ∧
      assetsOf db4 bid = [] ∧ blockById db4 bid = some b4 ∧ b4.status = BlockStatus.DRAFT) := by
  have hkid : blk.id = bid := by
    have h := List.find?_some hb
    simpa using h
  refine ⟨?_, ?_, ?_, ?_⟩
  · simp only [update_block, hb]
    refine ⟨_, _, rfl, ?_, ?_, rfl⟩
    · refine (edit_path_common db bid blk ?_ hb ?_).1
      exact hkid
    · refine (edit_path_common db bid blk ?_ hb ?_).2
      exact hkid
  · simp only [routers_update_block, hb]
    refine ⟨_, _, rfl, ?_, ?_, rfl⟩
    · refine (edit_path_common db bid blk ?_ hb ?_).1
      exact hkid
    · refine (edit_path_common db bid blk ?_ hb ?_).2
      exact hkid
  · simp only [update_block_text, hb]
    refine ⟨_, _, rfl, ?_, ?_, rfl⟩
    · refine (edit_path_common db bid blk ?_ hb ?_).1
      exact hkid
    · refine (edit_path_common db bid blk ?_ hb ?_).2
      exact hkid
  · simp only [update_block_keywords, hb]
    refine ⟨_, _, rfl, ?_, ?_, rfl⟩
    · refine (edit_path_common db bid blk ?_ hb ?_).1
      exact hkid
    · refine (edit_path_common db bid blk ?_ hb ?_).2
      exact hkid

/-- C2 witness at a concrete database. -/
def dbW : DB :=
  { blocks := [{ id := 5, projectId := 1, index := 0, text := "hello".toList,
                 keywords := ["a"], status := BlockStatus.MATCHED },
               { id := 6, projectId := 1, index := 1, text := "world".toList,
                 keywords := ["b"], status := BlockStatus.MATCHED }],
    blockAssets := [{ id := 1, blockId := 5, assetId := 7, score := 0,
                      is_primary := true, chosen_by := ChosenBy.USER }] }

/-- The block record of id 5 in `dbW`. -/
def blkW : Block :=
  { id := 5, projectId := 1, index := 0, text := "hello".toList,
    keywords := ["a"], status := BlockStatus.MATCHED }

/-- C2 witness: the theorem applied to a concrete database where block 5 is
MATCHED and owns a primary asset. -/
theorem C2_edit_invalidation_witness :
    (∃ db1 b1, update_block dbW 5 (some "x".toList) none = .ok db1 b1 ∧
      assetsOf db1 5 = [] ∧ blockById db1 5 = some b1 ∧ b1.status = BlockStatus.DRAFT) ∧
    (∃ db2 b2, routers_update_block dbW 5 (some "x".toList) none = .ok db2 b2 ∧
      assetsOf db2 5 = [] ∧ blockById db2 5 = some b2 ∧ b2.status = BlockStatus.DRAFT) ∧
    (∃ db3 b3, update_block_text dbW 5 "y".toList = .ok db3 b3 ∧
      assetsOf db3 5 = [] ∧ blockById db3 5 = some b3 ∧ b3.status = BlockStatus.DRAFT) ∧
    (∃ db4 b4, update_block_keywords dbW 5 ["k"] = .ok db4 b4 ∧
      assetsOf db4 5 = [] ∧ blockById db4 5 = some b4 ∧ b4.status = BlockStatus.DRAFT) :=
  C2_edit_invalidation dbW 5 blkW (by decide) (some "x".toList) none "y".toList ["k"]

/-- C10: a block update call that supplies neither new text nor new keywords
(a no-op edit) still deletes all BlockAsset rows of the block and sets its
status to DRAFT, while leaving text and keywords unchanged — invalidation is
triggered by the call itself, on the service path and on the router path. -/
theorem C10_noop_edit_invalidates (db : DB) (bid : Nat) (blk : Block)
    (hb : blockById db bid = some blk) :
    (∃ db1, update_block db bid none none = .ok db1 { blk with status := BlockStatus.DRAFT } ∧
      assetsOf db1 bid = [] ∧
      blockById db1 bid = some { blk with status := BlockStatus.DRAFT }) ∧
    (∃ db2, routers_update_block db bid none none = .ok db2 { blk with status := BlockStatus.DRAFT } ∧
      assetsOf db2 bid = [] ∧
      blockById db2 bid = some { blk with status := BlockStatus.DRAFT }) ∧
    ({ blk with status := BlockStatus.DRAFT } : Block).text = blk.text ∧
    ({ blk with status := BlockStatus.DRAFT } : Block).keywords = blk.keywords := by
  have hkid : blk.id = bid := by
    have h := List.find?_some hb
    simpa using h
  refine ⟨?_, ?_, rfl, rfl⟩
  · simp only [update_block, hb]
    refine ⟨_, rfl, ?_, ?_⟩
    · refine (edit_path_common db bid blk ?_ hb ?_).1
      exact hkid
    · refine (edit_path_common db bid blk ?_ hb ?_).2
      exact hkid
  · simp only [routers_update_block, hb]
    refine ⟨_, rfl, ?_, ?_⟩
    · refine (edit_path_common db bid blk ?_ hb ?_).1
      exact hkid
    · refine (edit_path_common db bid blk ?_ hb ?_).2
      exact hkid

/-- C10 witness: the no-op edit applied to a concrete database where block 5
is MATCHED and owns a primary asset. -/
theorem C10_noop_edit_invalidates_witness :
    (∃ db1, update_block dbW 5 none none = .ok db1 { blkW with status := BlockStatus.DRAFT } ∧
      assetsOf db1 5 = [] ∧
      blockById db1 5 = some { blkW with status := BlockStatus.DRAFT }) ∧
    (∃ db2, routers_update_block dbW 5 none none = .ok db2 { blkW with status := BlockStatus.DRAFT } ∧
      assetsOf db2 5 = [] ∧
      blockById db2 5 = some { blkW with status := BlockStatus.DRAFT }) ∧
    ({ blkW with status := BlockStatus.DRAFT } : Block).text = blkW.text ∧
    ({ blkW with status := BlockStatus.DRAFT } : Block).keywords = blkW.keywords :=
  C10_noop_edit_invalidates dbW 5 blkW (by decide)

/-- A concrete project for the split-keyword claim: one block whose keyword
list K has four entries, so K[3:] = ["k4"] is non-empty. -/
def dbK : DB :=
  { blocks := [{ id := 1, projectId := 1, index := 0, text := "abcdeabcde".toList,
                 keywords := ["k1", "k2", "k3", "k4"], status := BlockStatus.MATCHED }],
    blockAssets := [] }

/-- C4: on a successful split of a block with original keywords
K = [k1,k2,k3,k4], the first block gets K[:3] as the claim states, but the
second block gets [] rather than K[3:] = [k4]: the code re-reads
`block.keywords` after truncating it to the first three entries, so the
`len > 3` guard can never hold and the second half is always empty.  The
theorem evaluates `split_block` at this failing input. -/
theorem C4_split_keyword_partition_bug :
    ∃ dbr b1 b2, split_block dbK 1 5 9 = SplitRes.ok dbr b1 b2 ∧
      b1.keywords = ["k1", "k2", "k3"] ∧
      b2.keywords = [] ∧
      ["k1", "k2", "k3", "k4"].drop 3 = ["k4"] ∧
      b2.keywords ≠ ["k1", "k2", "k3", "k4"].drop 3 := by
  refine ⟨_, _, _, rfl, ?_, ?_, ?_, ?_⟩ <;> decide

/-- Applying both UPDATE steps to the target row itself yields the row marked
primary with `chosen_by = USER`, whether or not it was primary before. -/
theorem spSet_spClear_self (bid : Nat) (t : BlockAsset) :
    spSet t.id (spClear bid t) = { t with is_primary := true, chosen_by := ChosenBy.USER } := by
  unfold spClear spSet
  by_cases h : (t.blockId == bid && t.is_primary) = true
  · simp [h]
  · simp [h]

/-- Applying both UPDATE steps to a non-target row never leaves it as a
primary link of the block. -/
theorem spImage_not_primary (bid tid : Nat) (ba : BlockAsset) (hne : ba.id ≠ tid) :
    ((spSet tid (spClear bid ba)).blockId == bid && (spSet tid (spClear bid ba)).is_primary) = false := by
  unfold spClear spSet
  by_cases h1 : (ba.blockId == bid && ba.is_primary) = true
  · simp [h1, hne]
  · rw [if_neg h1]
    rw [if_neg (by simp [hne] : ¬ ((ba.id == tid) = true))]
    simpa using h1

/-- Applying both UPDATE steps to a previously-primary non-target row of the
block yields the row cleared, with `chosen_by` reverted to AUTO. -/
theorem spImage_prev (bid tid : Nat) (ba : BlockAsset)
    (h1 : ba.blockId = bid) (h2 : ba.is_primary = true) (hne : ba.id ≠ tid) :
    spSet tid (spClear bid ba) = { ba with is_primary := false, chosen_by := ChosenBy.AUTO } := by
  unfold spClear spSet
  simp [h1, h2, hne]

/-- Rows whose id differs from the target contribute nothing to the primary
filter after both UPDATE steps. -/
theorem set_primary_filter_nil (bid tid : Nat) (l : List BlockAsset)
    (h : ∀ ba ∈ l, ba.id ≠ tid) :
    ((l.map (spClear bid)).map (spSet tid)).filter
      (fun (ba : BlockAsset) => ba.blockId == bid && ba.is_primary) = [] := by
  induction l with
  | nil => rfl
  | cons x rest ih =>
    have hx := h x (List.mem_cons_self x rest)
    simp only [List.map_cons, List.filter_cons]
    rw [spImage_not_primary bid tid x hx]
    exact ih (fun ba hba => h ba (List.mem_cons_of_mem x hba))

/-- After both UPDATE steps, the primary links of the block are exactly the
marked target row (primary keys are unique). -/
theorem set_primary_filter_eq (bid : Nat) (t : BlockAsset) (htb : t.blockId = bid) :
    ∀ (l : List BlockAsset), t ∈ l → (l.map (fun (ba : BlockAsset) => ba.id)).Nodup →
    ((l.map (spClear bid)).map (spSet t.id)).filter
      (fun (ba : BlockAsset) => ba.blockId == bid && ba.is_primary)
      = [{ t with is_primary := true, chosen_by := ChosenBy.USER }] := by
  intro l
  induction l with
  | nil => intro hmem; simp at hmem
  | cons x rest ih =>
    intro hmem hnodup
    simp only [List.map_cons, List.nodup_cons] at hnodup
    rcases List.mem_cons.1 hmem with hx | hrest
    · subst hx
      simp only [List.map_cons]
      rw [spSet_spClear_self bid t]
      rw [List.filter_cons_of_pos (by simp [htb])]
      have hrestnil : ((rest.map (spClear bid)).map (spSet t.id)).filter
          (fun (ba : BlockAsset) => ba.blockId == bid && ba.is_primary) = [] := by
        refine set_primary_filter_nil bid t.id rest ?_
        intro ba hba heq
        exact hnodup.1 (by rw [← heq]; exact List.mem_map.2 ⟨ba, hba, rfl⟩)
      rw [hrestnil]
    · have hxne : x.id ≠ t.id := fun heq =>
        hnodup.1 (by rw [heq]; exact List.mem_map.2 ⟨t, hrest, rfl⟩)
      simp only [List.map_cons]
      rw [List.filter_cons_of_neg (by simp [spImage_not_primary bid t.id x hxne])]
      exact ih hrest hnodup.2

/-- C3 (amended): on a block satisfying at-most-one-primary, `set_primary`
with an asset not linked to the block fails with AssetNotFoundError and
changes nothing (the `err` state is the input state); with a linked asset it
succeeds, and afterwards exactly one BlockAsset of the block is primary,
namely the targeted link with `chosen_by = USER`, while every
previously-primary link of the block other than the target is cleared with
`chosen_by` reverted to AUTO.  (When the target itself was the primary link
it stays primary with `chosen_by = USER`; the original claim asserted it
would be cleared.) -/
theorem C3_amended_set_primary (db : DB) (bid aid : Nat)
    (hone : ((assetsOf db bid).filter (fun (ba : BlockAsset) => ba.is_primary)).length ≤ 1)
    (hnodup : (db.blockAssets.map (fun (ba : BlockAsset) => ba.id)).Nodup) :
    ((db.blockAssets.find? (fun (ba : BlockAsset) => ba.blockId == bid && ba.assetId == aid) = none) →
      set_primary_asset db bid aid = AssetRes.err db ErrKind.assetNotFoundError) ∧
    (∀ t, db.blockAssets.find? (fun (ba : BlockAsset) => ba.blockId == bid && ba.assetId == aid) = some t →
      t.blockId = bid ∧ t.assetId = aid ∧
      ∃ db', set_primary_asset db bid aid =
          AssetRes.ok db' { t with is_primary := true, chosen_by := ChosenBy.USER } ∧
        db'.blockAssets.filter (fun (ba : BlockAsset) => ba.blockId == bid && ba.is_primary)
          = [{ t with is_primary := true, chosen_by := ChosenBy.USER }] ∧
        (∀ ba ∈ db.blockAssets, ba.blockId = bid → ba.is_primary = true → ba.id ≠ t.id →
          { ba with is_primary := false, chosen_by := ChosenBy.AUTO } ∈ db'.blockAssets)) := by
  constructor
  · intro h
    simp only [set_primary_asset, h]
  · intro t ht
    have hpred := List.find?_some ht
    simp only [Bool.and_eq_true, beq_iff_eq] at hpred
    have hmem := List.mem_of_find?_eq_some ht
    refine ⟨hpred.1, hpred.2, ?_⟩
    simp only [set_primary_asset, ht]
    refine ⟨_, rfl, ?_, ?_⟩
    · exact set_primary_filter_eq bid t hpred.1 db.blockAssets hmem hnodup
    · intro ba hba h1 h2 h3
      have himg : spSet t.id (spClear bid ba)
          = { ba with is_primary := false, chosen_by := ChosenBy.AUTO } :=
        spImage_prev bid t.id ba h1 h2 h3
      have hm1 := List.mem_map_of_mem (spClear bid) hba
      have hm2 := List.mem_map_of_mem (spSet t.id) hm1
      rw [himg] at hm2
      exact hm2

/-- The single asset link of the C3 counterexample database: asset 7 is the
current primary of block 1. -/
def baC : BlockAsset :=
  { id := 1, blockId := 1, assetId := 7, score := 0, is_primary := true, chosen_by := ChosenBy.USER }

/-- The C3 counterexample database. -/
def dbC : DB := { blocks := [], blockAssets := [baC] }

/-- C3 counterexample: in a state satisfying at-most-one-primary where the
targeted asset is already the block's primary link, `set_primary` succeeds
and the previously-primary link (the target itself) still has
`is_primary = true` afterwards, so the claim's requirement that the
previously-primary link end with `is_primary = false` and `chosen_by = AUTO`
is false at this input. -/
theorem C3_counterexample :
    ((assetsOf dbC 1).filter (fun (ba : BlockAsset) => ba.is_primary)).length ≤ 1 ∧
    baC ∈ dbC.blockAssets ∧ baC.blockId = 1 ∧ baC.assetId = 7 ∧ baC.is_primary = true ∧
    set_primary_asset dbC 1 7 = AssetRes.ok dbC baC ∧
    ¬ (∀ ba ∈ dbC.blockAssets, ba.blockId = 1 → ba.is_primary = true →
        ∀ db' t, set_primary_asset dbC 1 7 = AssetRes.ok db' t →
          ∀ ba' ∈ db'.blockAssets, ba'.id = ba.id →
            ba'.is_primary = false ∧ ba'.chosen_by = ChosenBy.AUTO) := by
  refine ⟨by decide, by decide, by decide, by decide, by decide, by decide, ?_⟩
  intro h
  have hfalse := h baC (by decide) (by decide) (by decide) dbC baC (by decide)
    baC (by decide) (by decide)
  exact absurd hfalse.1 (by decide)

/-- C3 witness: the amended theorem applied to a database whose block 1 has
two links, asset 7 primary (AUTO) and asset 8 not primary; setting asset 8
primary exercises both the success branch and the revert-previous branch. -/
def dbC2 : DB :=
  { blocks := [],
    blockAssets := [{ id := 1, blockId := 1, assetId := 7, score := 0,
                      is_primary := true, chosen_by := ChosenBy.AUTO },
                    { id := 2, blockId := 1, assetId := 8, score := 0,
                      is_primary := false, chosen_by := ChosenBy.AUTO }] }

/-- C3 witness applying `C3_amended_set_primary` at `dbC2`, targeting the
linked non-primary asset 8 so the success branch and the revert-previous
branch are exercised. -/
theorem C3_amended_set_primary_witness :
    ((dbC2.blockAssets.find? (fun (ba : BlockAsset) => ba.blockId == 1 && ba.assetId == 8) = none) →
      set_primary_asset dbC2 1 8 = AssetRes.err dbC2 ErrKind.assetNotFoundError) ∧
    (∀ t, dbC2.blockAssets.find? (fun (ba : BlockAsset) => ba.blockId == 1 && ba.assetId == 8) = some t →
      t.blockId = 1 ∧ t.assetId = 8 ∧
      ∃ db', set_primary_asset dbC2 1 8 =
          AssetRes.ok db' { t with is_primary := true, chosen_by := ChosenBy.USER } ∧
        db'.blockAssets.filter (fun (ba : BlockAsset) => ba.blockId == 1 && ba.is_primary)
          = [{ t with is_primary := true, chosen_by := ChosenBy.USER }] ∧
        (∀ ba ∈ dbC2.blockAssets, ba.blockId = 1 → ba.is_primary = true → ba.id ≠ t.id →
          { ba with is_primary := false, chosen_by := ChosenBy.AUTO } ∈ db'.blockAssets)) :=
  C3_amended_set_primary dbC2 1 8 (by decide) (by decide)

/-- Renumbering preserves the id sequence (hence the relative order). -/
theorem assignIdxFrom_map_id (n : Nat) (l : List Block) :
    (assignIdxFrom n l).map (fun (b : Block) => b.id) = l.map (fun (b : Block) => b.id) := by
  induction l generalizing n with
  | nil => rfl
  | cons b t ih => simp [assignIdxFrom, ih]

/-- Renumbering assigns the consecutive integers starting at the counter. -/
theorem assignIdxFrom_map_index (n : Nat) (l : List Block) :
    (assignIdxFrom n l).map (fun (b : Block) => b.index)
      = (List.range' n l.length).map (fun (k : Nat) => (k : Int)) := by
  induction l generalizing n with
  | nil => rfl
  | cons b t ih => simp [assignIdxFrom, List.range'_succ, ih]

/-- Renumbering preserves each row's project. -/
theorem assignIdxFrom_proj (n : Nat) (l : List Block) :
    ∀ b' ∈ assignIdxFrom n l, ∃ b ∈ l, b'.projectId = b.projectId := by
  induction l generalizing n with
  | nil => intro b' h; simp [assignIdxFrom] at h
  | cons b t ih =>
    intro b' h
    rcases List.mem_cons.1 h with h1 | h2
    · exact ⟨b, List.mem_cons_self b t, by rw [h1]⟩
    · rcases ih (n + 1) b' h2 with ⟨c, hc, hpc⟩
      exact ⟨c, List.mem_cons_of_mem b hc, hpc⟩

/-- Filtering a project's rows out of the other-projects part yields nothing. -/
theorem filter_pid_of_not_pid (l : List Block) (pid : Nat) :
    (l.filter (fun (b : Block) => !(b.projectId == pid))).filter
      (fun (b : Block) => b.projectId == pid) = [] := by
  simp [List.filter_filter]

/-- The project-blocks query evaluated after a reindex returns exactly the
renumbered sorted rows. -/
theorem projBlocks_reindexProject (db : DB) (pid : Nat) :
    projBlocks (reindexProject db pid) pid = assignIdx (projBlocksSorted db pid) := by
  unfold projBlocks reindexProject
  rw [List.filter_append]
  rw [filter_pid_of_not_pid]
  rw [List.nil_append]
  rw [List.filter_eq_self.2]
  intro b' hb'
  rcases assignIdxFrom_proj 0 (projBlocksSorted db pid) b' hb' with ⟨b, hb, hp⟩
  have hbp : b.projectId = pid := by
    have hmem : b ∈ projBlocks db pid := by
      have := (List.mem_insertionSort blkLe).1 hb
      exact this
    have := List.of_mem_filter hmem
    simpa using this
  simp [hp, hbp]

/-- The project for the C9 counterexample: one block, currently at index 0. -/
def db9 : DB :=
  { blocks := [{ id := 3, projectId := 1, index := 0, text := "t".toList,
                 keywords := [], status := BlockStatus.DRAFT }],
    blockAssets := [] }

/-- C9 counterexample: the claim predicts reindex keys GAP*(p+1) = 1.0, ...,
N (here [1] for the single block); the code assigns 0-based positions
(`block.index = new_idx` over `enumerate`), so the single block receives key
0, not 1. -/
theorem C9_counterexample :
    ((reindex_blocks db9 1).2.map (fun (b : Block) => b.index) = [0]) ∧
    (projBlocks (reindex_blocks db9 1).1 1).map (fun (b : Block) => b.index) = [0] ∧
    ¬ ((reindex_blocks db9 1).2.map (fun (b : Block) => b.index)
        = (List.range 1).map (fun (p : Nat) => ((p : Int) + 1))) := by
  refine ⟨by decide, by decide, by decide⟩

/-- C9 (amended): reindex assigns to the block at each position p
(p = 0..N-1 of the existing relative order) the key p — i.e. keys
0, 1, ..., N-1, not GAP*(p+1) — preserving the existing relative order of the
project's blocks (other projects untouched, and the returned list is the
renumbered ordered list). -/
theorem C9_amended_reindex (db : DB) (pid : Nat) :
    projBlocks (reindex_blocks db pid).1 pid = assignIdx (projBlocksSorted db pid) ∧
    (reindex_blocks db pid).2 = assignIdx (projBlocksSorted db pid) ∧
    (assignIdx (projBlocksSorted db pid)).map (fun (b : Block) => b.id)
      = (projBlocksSorted db pid).map (fun (b : Block) => b.id) ∧
    (assignIdx (projBlocksSorted db pid)).map (fun (b : Block) => b.index)
      = (List.range (projBlocksSorted db pid).length).map (fun (k : Nat) => (k : Int)) ∧
    (projBlocksSorted db pid).Perm (projBlocks db pid) ∧
    List.Sorted blkLe (projBlocksSorted db pid) := by
  refine ⟨projBlocks_reindexProject db pid, rfl, assignIdxFrom_map_id 0 _, ?_, ?_, ?_⟩
  · simp only [assignIdx]
    rw [assignIdxFrom_map_index 0 _, List.range_eq_range']
  · exact List.perm_insertionSort blkLe _
  · exact List.sorted_insertionSort blkLe _

/-- Lookup of a block's order key by primary key. -/
def idxOf (db : DB) (bid : Nat) : Option Int :=
  (blockById db bid).map (fun (b : Block) => b.index)

/-- The one-block project of the C1 counterexample. -/
def dbL : DB :=
  { blocks := [{ id := 5, projectId := 1, index := 0, text := "t".toList,
                 keywords := [], status := BlockStatus.DRAFT }],
    blockAssets := [] }

/-- C1 counterexample: inserting a new block (id 9) at position 0 changes the
key of the existing, uninvolved block 5 from 0 to 1, so insertion does not
leave the order of blocks not involved in the operation unchanged. -/
theorem C1_counterexample :
    idxOf dbL 5 = some 0 ∧
    (∀ b ∈ dbL.blocks, b.id ≠ 9) ∧
    idxOf (create_block dbL 1 9 "n".toList [] 0).db 5 = some 1 ∧
    ¬ (∀ b ∈ dbL.blocks, idxOf (create_block dbL 1 9 "n".toList [] 0).db b.id = some b.index) := by
  refine ⟨by decide, by decide, by decide, by decide⟩

/-- Insert locality (amended form): rows of other projects and rows strictly
before the insert position keep their full record; rows of the project at or
after the insert position are shifted up by one. -/
theorem create_block_locality (db : DB) (pid newId : Nat) (text : List Char)
    (kws : List String) (at_ : Int) :
    (∀ b ∈ db.blocks, (b.projectId ≠ pid ∨ b.index < at_) →
      b ∈ (create_block db pid newId text kws at_).db.blocks) ∧
    (∀ b ∈ db.blocks, b.projectId = pid → at_ ≤ b.index →
      { b with index := b.index + 1 } ∈ (create_block db pid newId text kws at_).db.blocks) := by
  constructor
  · intro b hb hcond
    unfold create_block
    refine List.mem_append_left _ ?_
    have hm := List.mem_map_of_mem (fun (c : Block) =>
      if c.projectId == pid && at_ ≤ c.index then { c with index := c.index + 1 } else c) hb
    have himg : (if b.projectId == pid && at_ ≤ b.index then
        { b with index := b.index + 1 } else b) = b := by
      rcases hcond with h | h
      · rw [if_neg]
        simp [h]
      · rw [if_neg]
        simp [Int.not_le.2 h]
    simpa only [himg] using hm
  · intro b hb h1 h2
    unfold create_block
    refine List.mem_append_left _ ?_
    have hm := List.mem_map_of_mem (fun (c : Block) =>
      if c.projectId == pid && at_ ≤ c.index then { c with index := c.index + 1 } else c) hb
    have himg : (if b.projectId == pid && at_ ≤ b.index then
        { b with index := b.index + 1 } else b) = { b with index := b.index + 1 } := by
      rw [if_pos]
      simp [h1, h2]
    simpa only [himg] using hm

/-- Delete locality (amended form): every other row survives; rows of other
projects and rows with a smaller key keep their full record, rows of the
project with a larger key are shifted down by one. -/
theorem delete_block_locality (db : DB) (bid : Nat) (d : Block)
    (hd : blockById db bid = some d) :
    ∀ b ∈ db.blocks, b.id ≠ bid →
      ∃ dbr, delete_block db bid = OpRes.ok dbr ∧
        ((b.projectId ≠ d.projectId ∨ b.index < d.index) → b ∈ dbr.blocks) ∧
        (b.projectId = d.projectId → d.index < b.index →
          { b with index := b.index - 1 } ∈ dbr.blocks) := by
  intro b hb hne
  simp only [delete_block, hd]
  refine ⟨_, rfl, ?_, ?_⟩
  · intro hcond
    have hb2 : b ∈ (delete_block_assets db bid).blocks.eraseP (fun (c : Block) => c.id == bid) := by
      rw [blocks_delete_block_assets]
      exact (List.mem_eraseP_of_neg (by simp [hne])).2 hb
    have hm := List.mem_map_of_mem (fun (c : Block) =>
      if c.projectId == d.projectId && d.index < c.index then { c with index := c.index - 1 } else c) hb2
    have himg : (if b.projectId == d.projectId && d.index < b.index then
        { b with index := b.index - 1 } else b) = b := by
      rcases hcond with h | h
      · rw [if_neg]
        simp [h]
      · rw [if_neg]
        simp [Int.not_lt.2 (le_of_lt h)]
    simpa only [himg] using hm
  · intro h1 h2
    have hb2 : b ∈ (delete_block_assets db bid).blocks.eraseP (fun (c : Block) => c.id == bid) := by
      rw [blocks_delete_block_assets]
      exact (List.mem_eraseP_of_neg (by simp [hne])).2 hb
    have hm := List.mem_map_of_mem (fun (c : Block) =>
      if c.projectId == d.projectId && d.index < c.index then { c with index := c.index - 1 } else c) hb2
    have himg : (if b.projectId == d.projectId && d.index < b.index then
        { b with index := b.index - 1 } else b) = { b with index := b.index - 1 } := by
      rw [if_pos]
      simp [h1, h2]
    simpa only [himg] using hm

/-- Elimination for a successful merge: the query was non-empty, the checks
passed, and the result is the reindexed post-mutation state with the first
(lowest-index) block surviving. -/
theorem merge_blocks_ok_elim (db : DB) (pid : Nat) (ids : List Nat) (dbm : DB) (sid : Nat)
    (hok : merge_blocks db pid ids = MergeRes.ok dbm sid) :
    ∃ first rest, mergeFound db pid ids = first :: rest ∧
      (first :: rest).length = ids.length ∧
      adjacentChain ((first :: rest).map (fun (b : Block) => b.index)) = true ∧
      dbm = reindexProject (mergeApply db first rest) pid ∧
      sid = first.id := by
  unfold merge_blocks at hok
  by_cases h1 : (mergeFound db pid ids).length != ids.length
  · rw [if_pos h1] at hok
    exact absurd hok (by simp)
  · rw [if_neg h1] at hok
    by_cases h2 : !(adjacentChain ((mergeFound db pid ids).map (fun (b : Block) => b.index)))
    · rw [if_pos h2] at hok
      exact absurd hok (by simp)
    · rw [if_neg h2] at hok
      match hfound : mergeFound db pid ids with
      | [] =>
        rw [hfound] at hok
        exact absurd hok (by simp)
      | first :: rest =>
        rw [hfound] at hok
        refine ⟨first, rest, rfl, ?_, ?_, ?_, ?_⟩
        · have hlen : (mergeFound db pid ids).length = ids.length := by
            simpa [bne] using h1
          rw [hfound] at hlen
          exact hlen
        · have h2' : adjacentChain ((mergeFound db pid ids).map (fun (b : Block) => b.index)) = true := by
            simpa using h2
          rw [hfound] at h2'
          exact h2'
        · cases hok
          rfl
        · cases hok
          rfl

/-- Counting the naturals below an integer bound inside `range N`. -/
theorem countP_range_lt (j : Int) (hj : 0 ≤ j) :
    ∀ (N : Nat), (List.range N).countP (fun (k : Nat) => decide ((k : Int) < j)) = min j.toNat N := by
  intro N
  induction N with
  | zero => simp
  | succ n ih =>
    rw [List.range_succ, List.countP_append, ih]
    by_cases h : (n : Int) < j
    · have hn : n < j.toNat := by omega
      simp only [List.countP_cons, List.countP_nil, h]
      simp
      omega
    · have hn : j.toNat ≤ n := by omega
      simp only [List.countP_cons, List.countP_nil, h]
      simp
      omega

/-- A row-wise `Option` map that either drops a row or returns the given
projection produces a sublist of the projected list. -/
theorem filterMap_sublist_map {α β : Type} (f : α → Option β) (h : α → β) :
    ∀ (l : List α), (∀ a ∈ l, f a = none ∨ f a = some (h a)) →
      (l.filterMap f).Sublist (l.map h) := by
  intro l
  induction l with
  | nil => intro _; simp
  | cons x t ih =>
    intro hall
    rcases hall x (List.mem_cons_self x t) with hx | hx
    · rw [List.map_cons, List.filterMap_cons, hx]
      exact List.Sublist.cons (h x) (ih (fun a ha => hall a (List.mem_cons_of_mem x ha)))
    · rw [List.map_cons, List.filterMap_cons, hx]
      exact List.Sublist.cons₂ (h x) (ih (fun a ha => hall a (List.mem_cons_of_mem x ha)))

/-- Positional renumbering fixes any member of a sorted list with pairwise
distinct keys that already sits at the position given by the count of smaller
keys (shifted by the starting counter). -/
theorem mem_assignIdxFrom_of_count (n : Nat) :
    ∀ (S : List Block), List.Sorted blkLe S → (S.map (fun (b : Block) => b.index)).Nodup →
      ∀ b ∈ S, b.index = (n : Int) + (S.countP (fun (c : Block) => decide (c.index < b.index)) : Int) →
      b ∈ assignIdxFrom n S := by
  intro S
  induction S generalizing n with
  | nil => intro _ _ b hb; simp at hb
  | cons x t ih =>
    intro hsort hnodup b hb hpos
    have hsort' := List.sorted_cons.1 hsort
    simp only [List.map_cons, List.nodup_cons] at hnodup
    rcases List.mem_cons.1 hb with hbx | hbt
    · subst hbx
      have hcount : (b :: t).countP (fun (c : Block) => decide (c.index < b.index)) = 0 := by
        rw [List.countP_eq_zero]
        intro c hc
        rcases List.mem_cons.1 hc with h1 | h1
        · subst h1; simp
        · have hle : b.index ≤ c.index := hsort'.1 c h1
          simp [Int.not_lt.2 hle]
      rw [hcount] at hpos
      have hidx : b.index = (n : Int) := by omega
      have : ({ b with index := (n : Int) } : Block) = b := by
        cases b
        simp at hidx
        simp [hidx]
      rw [assignIdxFrom]
      rw [this]
      exact List.mem_cons_self b _
    · have hxlt : x.index < b.index := by
        have hle : x.index ≤ b.index := hsort'.1 b hbt
        rcases lt_or_eq_of_le hle with h | h
        · exact h
        · exact absurd (by rw [h]; exact List.mem_map.2 ⟨b, hbt, rfl⟩) hnodup.1
      have hcount : (x :: t).countP (fun (c : Block) => decide (c.index < b.index))
          = t.countP (fun (c : Block) => decide (c.index < b.index)) + 1 := by
        rw [List.countP_cons]
        simp [hxlt]
      rw [hcount] at hpos
      rw [assignIdxFrom]
      refine List.mem_cons_of_mem _ (ih (n + 1) hsort'.2 hnodup.2 b hbt ?_)
      push_cast at hpos ⊢
      omega

/-- The merge row mutations preserve any row count whose predicate ignores
the absorbed rows (they fail it) and is blind to the survivor rewrite. -/
theorem countP_mergeApply (q : Block → Bool) (first : Block) (rest : List Block)
    (hsurv : q (mergeSurvivor first rest) = q first) :
    ∀ (l : List Block),
      (∀ b ∈ l, ((rest.map (fun (r : Block) => r.id)).contains b.id) = true → q b = false) →
      (∀ b ∈ l, b.id = first.id → q b = q first) →
      (l.filterMap (fun (b : Block) =>
        if (rest.map (fun (r : Block) => r.id)).contains b.id then none
        else if b.id == first.id then some (mergeSurvivor first rest) else some b)).countP q
        = l.countP q := by
  intro l
  induction l with
  | nil => intro _ _; rfl
  | cons x t ih =>
    intro h1 h2
    have h1' := fun b hb => h1 b (List.mem_cons_of_mem x hb)
    have h2' := fun b hb => h2 b (List.mem_cons_of_mem x hb)
    by_cases hc : ((rest.map (fun (r : Block) => r.id)).contains x.id) = true
    · rw [List.filterMap_cons, if_pos hc]
      rw [List.countP_cons]
      rw [h1 x (List.mem_cons_self x t) hc]
      simp only [if_false]
      rw [ih h1' h2']
      simp
    · rw [List.filterMap_cons, if_neg hc]
      by_cases hx : (x.id == first.id) = true
      · rw [if_pos hx]
        rw [List.countP_cons, List.countP_cons]
        rw [hsurv, h2 x (List.mem_cons_self x t) (by simpa using hx)]
        rw [ih h1' h2']
      · rw [if_neg hx]
        rw [List.countP_cons, List.countP_cons]
        rw [ih h1' h2']

/-- Filtering commutes with a row-wise `Option` map whose results keep the
filter predicate of their source row. -/
theorem filter_filterMap_comm {α : Type} (p : α → Bool) (f : α → Option α) :
    ∀ (l : List α), (∀ c ∈ l, ∀ d, f c = some d → p d = p c) →
      (l.filterMap f).filter p = (l.filter p).filterMap f := by
  intro l
  induction l with
  | nil => intro _; rfl
  | cons x t ih =>
    intro hall
    have ih' := ih (fun c hc => hall c (List.mem_cons_of_mem x hc))
    cases hfx : f x with
    | none =>
      rw [List.filterMap_cons, hfx]
      by_cases hp : p x = true
      · rw [List.filter_cons_of_pos hp, List.filterMap_cons, hfx, ih']
      · rw [List.filter_cons_of_neg hp, ih']
    | some d =>
      have hpd := hall x (List.mem_cons_self x t) d hfx
      rw [List.filterMap_cons, hfx]
      by_cases hp : p x = true
      · rw [List.filter_cons_of_pos hp, List.filter_cons_of_pos (by rw [hpd, hp]),
          List.filterMap_cons, hfx, ih']
      · rw [List.filter_cons_of_neg hp, List.filter_cons_of_neg (by rw [hpd]; exact hp), ih']

/-- The project-blocks query after the merge row mutations equals the same
mutations applied to the project-blocks query (the survivor stays in the
project). -/
theorem projBlocks_mergeApply (db : DB) (pid : Nat) (first : Block) (rest : List Block)
    (hids : (db.blocks.map (fun (b : Block) => b.id)).Nodup)
    (hfirst : first ∈ db.blocks) :
    projBlocks (mergeApply db first rest) pid
      = (projBlocks db pid).filterMap (fun (b : Block) =>
          if (rest.map (fun (r : Block) => r.id)).contains b.id then none
          else if b.id == first.id then some (mergeSurvivor first rest) else some b) := by
  unfold projBlocks mergeApply
  refine filter_filterMap_comm _ _ db.blocks ?_
  intro c hc d hd
  by_cases h1 : ((rest.map (fun (r : Block) => r.id)).contains c.id) = true
  · rw [if_pos h1] at hd
    exact absurd hd (by simp)
  · rw [if_neg h1] at hd
    by_cases h2 : (c.id == first.id) = true
    · rw [if_pos h2] at hd
      have hcf : c = first := List.inj_on_of_nodup_map hids hc hfirst (by simpa using h2)
      cases hd
      rw [hcf]
      rfl
    · rw [if_neg h2] at hd
      cases hd
      rfl

/-- Merge locality (amended form): under the invariant that the project's
keys are exactly 0..N-1, a successful merge leaves every project block whose
key is strictly below every merged block's key entirely unchanged (same
record, same key) — the renumbering pass reassigns it its own position. -/
theorem merge_prefix_locality (db : DB) (pid : Nat) (ids : List Nat) (dbm : DB) (sid : Nat)
    (hids : (db.blocks.map (fun (b : Block) => b.id)).Nodup)
    (hcontig : (projBlocksSorted db pid).map (fun (b : Block) => b.index)
        = (List.range (projBlocks db pid).length).map (fun (k : Nat) => (k : Int)))
    (hok : merge_blocks db pid ids = MergeRes.ok dbm sid) :
    ∀ b ∈ projBlocks db pid,
      (∀ c ∈ mergeFound db pid ids, b.index < c.index) →
      b ∈ projBlocks dbm pid := by
  obtain ⟨first, rest, hfound, hlen, hchain, hdbm, hsid⟩ :=
    merge_blocks_ok_elim db pid ids dbm sid hok
  intro b hb hlt
  have hbdb : b ∈ db.blocks := List.mem_of_mem_filter hb
  -- every queried block is a project row of the database
  have hfoundmem : ∀ c ∈ mergeFound db pid ids, c ∈ db.blocks := by
    intro c hc
    have := (List.mem_insertionSort blkLe).1 hc
    exact List.mem_of_mem_filter this
  have hfirstdb : first ∈ db.blocks :=
    hfoundmem first (by rw [hfound]; exact List.mem_cons_self _ _)
  have hrestmem : ∀ r ∈ rest, r ∈ db.blocks := by
    intro r hr
    exact hfoundmem r (by rw [hfound]; exact List.mem_cons_of_mem _ hr)
  -- the permutation between sorted and unsorted project rows
  have hperm : (projBlocksSorted db pid).Perm (projBlocks db pid) :=
    List.perm_insertionSort blkLe _
  -- bounds on the key of b, from the contiguity invariant
  have hbkey : b.index ∈ (projBlocksSorted db pid).map (fun (b : Block) => b.index) := by
    refine (List.Perm.mem_iff (List.Perm.map _ hperm)).2 ?_
    exact List.mem_map.2 ⟨b, hb, rfl⟩
  rw [hcontig] at hbkey
  obtain ⟨k, hk, hkb⟩ := List.mem_map.1 hbkey
  have hk' := List.mem_range.1 hk
  have hj0 : 0 ≤ b.index := by omega
  have hjN : b.index.toNat < (projBlocks db pid).length := by omega
  -- the count of smaller keys inside the project equals the key itself
  have hcntP : (projBlocks db pid).countP (fun (c : Block) => decide (c.index < b.index))
      = b.index.toNat := by
    have e1 : (projBlocks db pid).countP (fun (c : Block) => decide (c.index < b.index))
        = (projBlocksSorted db pid).countP (fun (c : Block) => decide (c.index < b.index)) :=
      (List.Perm.countP_eq _ hperm).symm
    have e2 : (projBlocksSorted db pid).countP (fun (c : Block) => decide (c.index < b.index))
        = ((projBlocksSorted db pid).map (fun (c : Block) => c.index)).countP
            (fun (i : Int) => decide (i < b.index)) := by
      rw [List.countP_map]
      rfl
    have e3 : ((List.range (projBlocks db pid).length).map (fun (k : Nat) => (k : Int))).countP
        (fun (i : Int) => decide (i < b.index))
        = (List.range (projBlocks db pid).length).countP
            (fun (k : Nat) => decide ((k : Int) < b.index)) := by
      rw [List.countP_map]
      rfl
    rw [e1, e2, hcontig, e3, countP_range_lt b.index hj0]
    omega
  -- identification of rows by primary key
  have hinj := List.inj_on_of_nodup_map hids
  have hnotrest : ((rest.map (fun (r : Block) => r.id)).contains b.id) = false := by
    by_contra hcon
    have : b.id ∈ rest.map (fun (r : Block) => r.id) := by
      have := Bool.of_not_eq_false hcon
      simpa using this
    obtain ⟨r, hr, hrid⟩ := List.mem_map.1 this
    have hbr : r = b := hinj (hrestmem r hr) hbdb hrid
    have := hlt r (by rw [hfound]; exact List.mem_cons_of_mem _ hr)
    rw [hbr] at this
    omega
  have hnotfirst : (b.id == first.id) = false := by
    by_contra hcon
    have hbid : b.id = first.id := by
      have := Bool.of_not_eq_false hcon
      simpa using this
    have hbf : b = first := hinj hbdb hfirstdb hbid
    have := hlt first (by rw [hfound]; exact List.mem_cons_self _ _)
    rw [← hbf] at this
    omega
  -- b survives the merge mutations unchanged
  have hR : projBlocks (mergeApply db first rest) pid
      = (projBlocks db pid).filterMap (fun (c : Block) =>
          if (rest.map (fun (r : Block) => r.id)).contains c.id then none
          else if c.id == first.id then some (mergeSurvivor first rest) else some c) :=
    projBlocks_mergeApply db pid first rest hids hfirstdb
  have hbR : b ∈ projBlocks (mergeApply db first rest) pid := by
    rw [hR]
    refine List.mem_filterMap.2 ⟨b, hb, ?_⟩
    rw [if_neg (by rw [hnotrest]; simp), if_neg (by rw [hnotfirst]; simp)]
  -- the count of smaller keys is preserved by the merge mutations
  have hcntR : (projBlocks (mergeApply db first rest) pid).countP
      (fun (c : Block) => decide (c.index < b.index)) = b.index.toNat := by
    rw [hR]
    rw [countP_mergeApply (fun (c : Block) => decide (c.index < b.index))
      first rest rfl (projBlocks db pid) ?_ ?_]
    · exact hcntP
    · intro c hc hcontains
      have : c.id ∈ rest.map (fun (r : Block) => r.id) := by simpa using hcontains
      obtain ⟨r, hr, hrid⟩ := List.mem_map.1 this
      have hcr : r = c := hinj (hrestmem r hr) (List.mem_of_mem_filter hc) hrid
      have := hlt r (by rw [hfound]; exact List.mem_cons_of_mem _ hr)
      rw [hcr] at this
      simp
      omega
    · intro c hc hcid
      have hcf : c = first := hinj (List.mem_of_mem_filter hc) hfirstdb hcid
      rw [hcf]
  -- sortedness and distinct keys of the reindex input
  have hsorted : List.Sorted blkLe
      (List.insertionSort blkLe (projBlocks (mergeApply db first rest) pid)) :=
    List.sorted_insertionSort blkLe _
  have hkeysP : ((projBlocks db pid).map (fun (c : Block) => c.index)).Nodup := by
    refine (List.Perm.nodup_iff (List.Perm.map _ hperm)).1 ?_
    rw [hcontig]
    exact (List.nodup_range _).map (fun a b h => by omega)
  have hkeysR : ((projBlocks (mergeApply db first rest) pid).map
      (fun (c : Block) => c.index)).Nodup := by
    rw [hR, List.map_filterMap]
    refine List.Nodup.sublist (filterMap_sublist_map _ (fun (c : Block) => c.index)
      (projBlocks db pid) ?_) hkeysP
    intro c hc
    by_cases h1 : ((rest.map (fun (r : Block) => r.id)).contains c.id) = true
    · left
      rw [if_pos h1]
      rfl
    · by_cases h2 : (c.id == first.id) = true
      · right
        rw [if_neg h1, if_pos h2]
        have hcf : c = first := hinj (List.mem_of_mem_filter hc) hfirstdb (by simpa using h2)
        rw [hcf]
        rfl
      · right
        rw [if_neg h1, if_neg h2]
        rfl
  have hkeysS1 : ((List.insertionSort blkLe (projBlocks (mergeApply db first rest) pid)).map
      (fun (c : Block) => c.index)).Nodup :=
    (List.Perm.nodup_iff (List.Perm.map _ (List.perm_insertionSort blkLe _))).2 hkeysR
  -- b sits at position b.index of the sorted remainder, so reindex fixes it
  have hbS1 : b ∈ List.insertionSort blkLe (projBlocks (mergeApply db first rest) pid) :=
    (List.mem_insertionSort blkLe).2 hbR
  have hcount : b.index = ((0 : Nat) : Int)
      + ((List.insertionSort blkLe (projBlocks (mergeApply db first rest) pid)).countP
          (fun (c : Block) => decide (c.index < b.index)) : Int) := by
    rw [List.Perm.countP_eq _ (List.perm_insertionSort blkLe _), hcntR]
    omega
  have hfinal := mem_assignIdxFrom_of_count 0
    (List.insertionSort blkLe (projBlocks (mergeApply db first rest) pid))
    hsorted hkeysS1 b hbS1 hcount
  rw [hdbm, projBlocks_reindexProject]
  exact hfinal

/-- C1 (amended): mutation is local only below the affected position.
Inserting a block leaves rows of other projects and rows with key strictly
below the insert position unchanged, and shifts rows of the project at or
after the insert position up by one; deleting a block leaves rows of other
projects and rows with a smaller key unchanged, and shifts later rows of the
project down by one; a successful merge — under the maintained invariant
that the project's keys are exactly 0..N-1 — leaves every block whose key is
below the whole merged set unchanged (the final renumbering reassigns it its
own key), while blocks after the merged range are renumbered. -/
theorem C1_amended_locality :
    (∀ (db : DB) (pid newId : Nat) (text : List Char) (kws : List String) (at_ : Int),
      (∀ b ∈ db.blocks, (b.projectId ≠ pid ∨ b.index < at_) →
        b ∈ (create_block db pid newId text kws at_).db.blocks) ∧
      (∀ b ∈ db.blocks, b.projectId = pid → at_ ≤ b.index →
        { b with index := b.index + 1 } ∈ (create_block db pid newId text kws at_).db.blocks)) ∧
    (∀ (db : DB) (bid : Nat) (d : Block), blockById db bid = some d →
      ∀ b ∈ db.blocks, b.id ≠ bid →
        ∃ dbr, delete_block db bid = OpRes.ok dbr ∧
          ((b.projectId ≠ d.projectId ∨ b.index < d.index) → b ∈ dbr.blocks) ∧
          (b.projectId = d.projectId → d.index < b.index →
            { b with index := b.index - 1 } ∈ dbr.blocks)) ∧
    (∀ (db : DB) (pid : Nat) (ids : List Nat) (dbm : DB) (sid : Nat),
      (db.blocks.map (fun (b : Block) => b.id)).Nodup →
      (projBlocksSorted db pid).map (fun (b : Block) => b.index)
          = (List.range (projBlocks db pid).length).map (fun (k : Nat) => (k : Int)) →
      merge_blocks db pid ids = MergeRes.ok dbm sid →
      ∀ b ∈ projBlocks db pid, (∀ c ∈ mergeFound db pid ids, b.index < c.index) →
        b ∈ projBlocks dbm pid) :=
  ⟨fun db pid newId text kws at_ => create_block_locality db pid newId text kws at_,
   fun db bid d hd => delete_block_locality db bid d hd,
   fun db pid ids dbm sid hids hcontig hok =>
     merge_prefix_locality db pid ids dbm sid hids hcontig hok⟩

/-- A three-block project used to witness C1, C5 and C7. -/
def dbM3 : DB :=
  { blocks := [{ id := 10, projectId := 1, index := 0, text := "aa".toList,
                 keywords := [], status := BlockStatus.DRAFT },
               { id := 11, projectId := 1, index := 1, text := "bb".toList,
                 keywords := ["x"], status := BlockStatus.MATCHED },
               { id := 12, projectId := 1, index := 2, text := "cc".toList,
                 keywords := ["y"], status := BlockStatus.MATCHED }],
    blockAssets := [{ id := 1, blockId := 12, assetId := 7, score := 0,
                      is_primary := true, chosen_by := ChosenBy.AUTO }] }

/-- The first block of `dbM3`. -/
def blkM10 : Block :=
  { id := 10, projectId := 1, index := 0, text := "aa".toList,
    keywords := [], status := BlockStatus.DRAFT }

/-- The second block of `dbM3`. -/
def blkM11 : Block :=
  { id := 11, projectId := 1, index := 1, text := "bb".toList,
    keywords := ["x"], status := BlockStatus.MATCHED }

/-- The merged database resulting from merging blocks 11 and 12 of `dbM3`. -/
def dbM3m : DB :=
  { blocks := [blkM10,
               { id := 11, projectId := 1, index := 1,
                 text := ['b', 'b', '\n', '\n', 'c', 'c'],
                 keywords := ["x", "y"], status := BlockStatus.DRAFT }],
    blockAssets := [] }

/-- C1 witness: on `dbM3`, inserting at position 1 keeps block 10 and shifts
block 11; deleting block 11 keeps block 10 and shifts block 12; merging
blocks 11 and 12 keeps block 10 unchanged. -/
theorem C1_amended_locality_witness :
    (blkM10 ∈ (create_block dbM3 1 9 "n".toList [] 1).db.blocks) ∧
    ({ blkM11 with index := 2 } : Block) ∈ (create_block dbM3 1 9 "n".toList [] 1).db.blocks ∧
    (∃ dbr, delete_block dbM3 11 = OpRes.ok dbr ∧
      ((blkM10.projectId ≠ 1 ∨ blkM10.index < 1) → blkM10 ∈ dbr.blocks) ∧
      (blkM10.projectId = 1 → (1 : Int) < blkM10.index →
        { blkM10 with index := blkM10.index - 1 } ∈ dbr.blocks)) ∧
    (blkM10 ∈ projBlocks dbM3m 1) := by
  have hd : blockById dbM3 11 = some blkM11 := by decide
  refine ⟨?_, ?_, ?_, ?_⟩
  · exact (C1_amended_locality.1 dbM3 1 9 "n".toList [] 1).1 blkM10 (by decide) (by decide)
  · exact (C1_amended_locality.1 dbM3 1 9 "n".toList [] 1).2 blkM11 (by decide) (by decide) (by decide)
  · exact C1_amended_locality.2.1 dbM3 11 _ hd blkM10 (by decide) (by decide)
  · exact C1_amended_locality.2.2 dbM3 1 [11, 12] dbM3m 11 (by decide) (by decide)
      (by decide) blkM10 (by decide) (by decide)

/-- Lookup of the edited row after the in-place update and a subsequent
id-preserving rewrite that fixes the edited row. -/
theorem find?_map_map_update (bid : Nat) (blk b1 : Block) (s : Block → Block)
    (hid : b1.id = bid) (hs : s b1 = b1) (hspres : ∀ b, (s b).id = b.id) :
    ∀ (l : List Block), l.find? (fun (b : Block) => b.id == bid) = some blk →
    ((l.map (fun (b : Block) => if b.id == bid then b1 else b)).map s).find?
      (fun (b : Block) => b.id == bid) = some b1 := by
  intro l
  induction l with
  | nil => intro hf; simp at hf
  | cons x t ih =>
    intro hf
    by_cases hx : x.id = bid
    · have hhead : (if (x.id == bid) = true then b1 else x) = b1 := if_pos (by simpa using hx)
      simp only [List.map_cons, hhead, hs]
      exact List.find?_cons_of_pos _ (by simpa using hid)
    · have hhead : (if (x.id == bid) = true then b1 else x) = x := if_neg (by simpa using hx)
      simp only [List.map_cons, hhead]
      rw [@List.find?_cons_of_neg _ (fun (b : Block) => b.id == bid) _ _ (by simpa using hx)] at hf
      rw [@List.find?_cons_of_neg _ (fun (b : Block) => b.id == bid) _ _
        (by simp [hspres x, hx])]
      exact ih hf

/-- Lookup of the appended fresh row after an id-preserving rewrite pass. -/
theorem find?_map_append_new (bid newId : Nat) (b2 : Block) (s u : Block → Block)
    (hupres : ∀ b, (u b).id = b.id ∨ (u b).id = bid)
    (hspres : ∀ b, (s b).id = b.id)
    (hbid : bid ≠ newId)
    (hs2 : s b2 = b2) (hb2 : b2.id = newId) :
    ∀ (l : List Block), (∀ b ∈ l, b.id ≠ newId) →
    (((l.map u) ++ [b2]).map s).find? (fun (b : Block) => b.id == newId) = some b2 := by
  intro l hl
  rw [List.map_append, List.find?_append]
  have hnone : ((l.map u).map s).find? (fun (b : Block) => b.id == newId) = none := by
    rw [List.find?_eq_none]
    intro x hx
    rcases List.mem_map.1 hx with ⟨y, hy, hxy⟩
    rcases List.mem_map.1 hy with ⟨z, hz, hyz⟩
    have hxid : x.id = y.id := by rw [← hxy]; exact hspres y
    have hyid : y.id = z.id ∨ y.id = bid := by rw [← hyz]; exact hupres z
    simp only [beq_iff_eq]
    intro hc
    rcases hyid with h | h
    · exact hl z hz (by rw [← h, ← hxid, hc])
    · exact hbid (by rw [← h, ← hxid, hc])
  rw [hnone, Option.none_or]
  simp only [List.map_cons, List.map_nil, hs2]
  exact List.find?_cons_of_pos _ (by simpa using hb2)

/-- Membership of a rewritten row in a twice-mapped row list. -/
theorem mem_map_map_of_fix {α : Type} (s u : α → α) (x y : α) (l : List α)
    (hx : x ∈ l) (hexact : s (u x) = y) : y ∈ (l.map u).map s := by
  rw [← hexact]
  exact List.mem_map_of_mem s (List.mem_map_of_mem u hx)

/-- C6: with the block present, `split_block` raises BlockSplitError exactly
when the position is not strictly inside the text or one of the trimmed
halves is empty, and changes nothing on failure (the `err` state is the input
state); on success the first block keeps its id and key with the trimmed
first half as text, the second block is new, holds the trimmed second half,
and is placed strictly after the first block and strictly before every block
that followed the original block; both halves are non-empty. -/
theorem C6_split_validation (db : DB) (bid : Nat) (blk : Block) (pos : Int) (newId : Nat)
    (hb : blockById db bid = some blk)
    (hfresh : ∀ b ∈ db.blocks, b.id ≠ newId) :
    ((split_block db bid pos newId = SplitRes.err db ErrKind.blockSplitError) ↔
      (pos ≤ 0 ∨ (blk.text.length : Int) ≤ pos ∨
       pyStrip (blk.text.take pos.toNat) = [] ∨ pyStrip (blk.text.drop pos.toNat) = [])) ∧
    (∀ dbr b1 b2, split_block db bid pos newId = SplitRes.ok dbr b1 b2 →
      b1.text = pyStrip (blk.text.take pos.toNat) ∧
      b2.text = pyStrip (blk.text.drop pos.toNat) ∧
      b1.text ≠ [] ∧ b2.text ≠ [] ∧
      b1.id = bid ∧ b1.index = blk.index ∧ b2.id = newId ∧ b2.index = blk.index + 1 ∧
      b1.index < b2.index ∧
      blockById dbr bid = some b1 ∧ blockById dbr newId = some b2 ∧
      (∀ b ∈ db.blocks, b.projectId = blk.projectId → blk.index < b.index → b.id ≠ bid →
        ({ b with index := b.index + 1 } ∈ dbr.blocks ∧ b2.index < b.index + 1))) := by
  have hkid : blk.id = bid := by
    have h := List.find?_some hb
    simpa using h
  have hbmem : blk ∈ db.blocks := List.mem_of_find?_eq_some hb
  have hbidnew : bid ≠ newId := by
    intro hc
    exact hfresh blk hbmem (by rw [hkid, hc])
  constructor
  · simp only [split_block, hb]
    by_cases h1 : (decide (pos ≤ 0) || decide ((blk.text.length : Int) ≤ pos)) = true
    · rw [if_pos h1]
      simp only [true_iff]
      have h1p : pos ≤ 0 ∨ ((blk.text.length : Int) ≤ pos) := by simpa using h1
      rcases h1p with h | h
      · exact Or.inl h
      · exact Or.inr (Or.inl h)
    · rw [if_neg h1]
      have h1' : ¬ (pos ≤ 0) ∧ ¬ ((blk.text.length : Int) ≤ pos) := by
        constructor <;> intro hc <;> exact h1 (by simp [hc])
      by_cases h2 : ((pyStrip (blk.text.take pos.toNat)).isEmpty
          || (pyStrip (blk.text.drop pos.toNat)).isEmpty) = true
      · rw [if_pos h2]
        simp only [true_iff]
        have h2p : pyStrip (blk.text.take pos.toNat) = [] ∨
            pyStrip (blk.text.drop pos.toNat) = [] := by
          simpa [List.isEmpty_iff] using h2
        rcases h2p with h | h
        · exact Or.inr (Or.inr (Or.inl h))
        · exact Or.inr (Or.inr (Or.inr h))
      · rw [if_neg h2]
        constructor
        · intro hc
          exact absurd hc (by simp)
        · intro hc
          have h2' : ¬ (pyStrip (blk.text.take pos.toNat) = []) ∧
              ¬ (pyStrip (blk.text.drop pos.toNat) = []) := by
            constructor <;> intro hcc <;> exact h2 (by simp [hcc])
          rcases hc with h | h | h | h
          · exact absurd h h1'.1
          · exact absurd h h1'.2
          · exact absurd h h2'.1
          · exact absurd h h2'.2
  · intro dbr b1 b2 hok
    simp only [split_block, hb] at hok
    by_cases h1 : (decide (pos ≤ 0) || decide ((blk.text.length : Int) ≤ pos)) = true
    · rw [if_pos h1] at hok
      exact absurd hok (by simp)
    · rw [if_neg h1] at hok
      by_cases h2 : ((pyStrip (blk.text.take pos.toNat)).isEmpty
          || (pyStrip (blk.text.drop pos.toNat)).isEmpty) = true
      · rw [if_pos h2] at hok
        exact absurd hok (by simp)
      · rw [if_neg h2] at hok
        have h2' : ¬ (pyStrip (blk.text.take pos.toNat) = []) ∧
            ¬ (pyStrip (blk.text.drop pos.toNat) = []) := by
          constructor <;> intro hc
          · exact h2 (by simp [hc])
          · exact h2 (by simp [hc])
        cases hok
        refine ⟨rfl, rfl, h2'.1, h2'.2, hkid, rfl, rfl, rfl, lt_add_one _, ?_, ?_, ?_⟩
        · simp only [blockById]
          rw [List.map_append, List.find?_append]
          rw [find?_map_map_update bid blk
            { blk with
              text := pyStrip (blk.text.take pos.toNat),
              keywords := if blk.keywords.isEmpty then [] else blk.keywords.take 3,
              status := BlockStatus.DRAFT }
            _ hkid ?_ ?_ (delete_block_assets db bid).blocks hb]
          · rfl
          · rw [if_neg]
            simp
          · intro b
            by_cases hcond : (b.projectId == blk.projectId && decide (blk.index < b.index)
                && b.id != newId) = true
            · rw [if_pos hcond]
            · rw [if_neg hcond]
        · simp only [blockById]
          refine find?_map_append_new bid newId _ _ _ ?_ ?_ hbidnew ?_ rfl
            (delete_block_assets db bid).blocks hfresh
          · intro b
            by_cases hcond : (b.id == bid) = true
            · rw [if_pos hcond]
              right
              exact hkid
            · rw [if_neg hcond]
              left
              rfl
          · intro b
            by_cases hcond : (b.projectId == blk.projectId && decide (blk.index < b.index)
                && b.id != newId) = true
            · rw [if_pos hcond]
            · rw [if_neg hcond]
          · rw [if_neg]
            simp
        · intro b hbm hproj hidx hneb
          constructor
          · show _ ∈ List.map _ (List.map _ (delete_block_assets db bid).blocks ++ _)
            rw [List.map_append]
            refine List.mem_append_left _ ?_
            refine mem_map_map_of_fix _ _ b _ (delete_block_assets db bid).blocks hbm ?_
            rw [if_neg (show ¬ ((b.id == bid) = true) by simpa using hneb)]
            rw [if_pos (show (b.projectId == blk.projectId && decide (blk.index < b.index)
              && b.id != newId) = true by simp [hproj, hidx, hfresh b hbm])]
          · show blk.index + 1 < b.index + 1
            omega

/-- C6 witness: splitting block 5 of `dbW` ("hello") at position 2 with fresh
id 9. -/
theorem C6_split_validation_witness :
    ((split_block dbW 5 2 9 = SplitRes.err dbW ErrKind.blockSplitError) ↔
      ((2 : Int) ≤ 0 ∨ (blkW.text.length : Int) ≤ 2 ∨
       pyStrip (blkW.text.take (2 : Int).toNat) = [] ∨
       pyStrip (blkW.text.drop (2 : Int).toNat) = [])) ∧
    (∀ dbr b1 b2, split_block dbW 5 2 9 = SplitRes.ok dbr b1 b2 →
      b1.text = pyStrip (blkW.text.take (2 : Int).toNat) ∧
      b2.text = pyStrip (blkW.text.drop (2 : Int).toNat) ∧
      b1.text ≠ [] ∧ b2.text ≠ [] ∧
      b1.id = 5 ∧ b1.index = blkW.index ∧ b2.id = 9 ∧ b2.index = blkW.index + 1 ∧
      b1.index < b2.index ∧
      blockById dbr 5 = some b1 ∧ blockById dbr 9 = some b2 ∧
      (∀ b ∈ dbW.blocks, b.projectId = blkW.projectId → blkW.index < b.index → b.id ≠ 5 →
        ({ b with index := b.index + 1 } ∈ dbr.blocks ∧ b2.index < b.index + 1))) :=
  C6_split_validation dbW 5 blkW 2 9 (by decide) (by decide)

/-- In a chain of consecutive integers, the k-th entry is the head plus k. -/
theorem adjacentChain_get (a : Int) : ∀ (t : List Int), adjacentChain (a :: t) = true →
    ∀ (k : Nat) (h : k < (a :: t).length), (a :: t).get ⟨k, h⟩ = a + k := by
  intro t
  induction t generalizing a with
  | nil =>
    intro _ k h
    match k with
    | 0 => simp
    | k + 1 => simp at h
  | cons b t' ih =>
    intro hch k h
    have hch' : (b - a == 1) = true ∧ adjacentChain (b :: t') = true := by
      have : ((b - a == 1) && adjacentChain (b :: t')) = true := hch
      exact Bool.and_eq_true_iff.1 this
    obtain ⟨hab, hchain⟩ := hch'
    have hab' : b - a = 1 := by simpa using hab
    match k with
    | 0 => simp
    | k + 1 =>
      have h' : k < (b :: t').length := by simpa using h
      have := ih b hchain k h'
      show (b :: t').get ⟨k, h'⟩ = a + (k + 1 : Nat)
      rw [this]
      push_cast
      omega

/-- A chain of consecutive integers contains every integer lying strictly
between two of its members. -/
theorem adjacentChain_between (l : List Int) (hch : adjacentChain l = true)
    (x y j : Int) (hx : x ∈ l) (hy : y ∈ l) (hxj : x < j) (hjy : j < y) : j ∈ l := by
  match l with
  | [] => simp at hx
  | a :: t =>
    obtain ⟨⟨kx, hkx⟩, hgx⟩ := List.mem_iff_get.1 hx
    obtain ⟨⟨ky, hky⟩, hgy⟩ := List.mem_iff_get.1 hy
    rw [adjacentChain_get a t hch kx hkx] at hgx
    rw [adjacentChain_get a t hch ky hky] at hgy
    have hj : j = a + ((j - a).toNat : Int) := by omega
    have hlt : (j - a).toNat < (a :: t).length := by omega
    have := adjacentChain_get a t hch (j - a).toNat hlt
    rw [← hj] at this
    rw [← this]
    exact List.get_mem _ _ hlt

/-- C5: with distinct primary keys and distinct project keys, `merge_blocks`
fails with BlockMergeError — returning the
database unchanged (the `err` state is the input state) — whenever a
requested id has no block in the project, and whenever some other block of
the project has a key strictly between two requested blocks' keys. -/
theorem C5_merge_adjacency_rejection (db : DB) (pid : Nat) (ids : List Nat)
    (hids : (db.blocks.map (fun (b : Block) => b.id)).Nodup)
    (hkeys : ((projBlocks db pid).map (fun (b : Block) => b.index)).Nodup) :
    ((∃ i ∈ ids, ∀ b ∈ projBlocks db pid, b.id ≠ i) →
      merge_blocks db pid ids = MergeRes.err db ErrKind.blockMergeError) ∧
    ((∃ bo ∈ projBlocks db pid, bo.id ∉ ids ∧
      ∃ b1 ∈ projBlocks db pid, b1.id ∈ ids ∧
      ∃ b2 ∈ projBlocks db pid, b2.id ∈ ids ∧
      b1.index < bo.index ∧ bo.index < b2.index) →
      merge_blocks db pid ids = MergeRes.err db ErrKind.blockMergeError) := by
  constructor
  · rintro ⟨i, hi, hmiss⟩
    have hlt : (mergeFound db pid ids).length < ids.length := by
      have hlen : (mergeFound db pid ids).length
          = (db.blocks.filter (fun (b : Block) => b.projectId == pid && ids.contains b.id)).length :=
        List.length_insertionSort blkLe _
      rw [hlen]
      have hsub : (db.blocks.filter
          (fun (b : Block) => b.projectId == pid && ids.contains b.id)).map
          (fun (b : Block) => b.id) ⊆ ids.erase i := by
        intro x hx
        rcases List.mem_map.1 hx with ⟨b, hb, hbx⟩
        have hpred := List.of_mem_filter hb
        simp only [Bool.and_eq_true, beq_iff_eq] at hpred
        have hbdb : b ∈ db.blocks := List.mem_of_mem_filter hb
        have hbproj : b ∈ projBlocks db pid :=
          List.mem_filter_of_mem hbdb (by simp [hpred.1])
        have hne : b.id ≠ i := hmiss b hbproj
        have hmem : b.id ∈ ids := by simpa using hpred.2
        rw [← hbx]
        exact (List.mem_erase_of_ne hne).2 hmem
      have hnd : ((db.blocks.filter
          (fun (b : Block) => b.projectId == pid && ids.contains b.id)).map
          (fun (b : Block) => b.id)).Nodup :=
        List.Nodup.sublist (List.Sublist.map _ (List.filter_sublist _)) hids
      have hle := List.Subperm.length_le (List.Nodup.subperm hnd hsub)
      rw [List.length_map] at hle
      have herase : (ids.erase i).length = ids.length - 1 := List.length_erase_of_mem hi
      have hpos : 0 < ids.length := List.length_pos_of_mem hi
      omega
    unfold merge_blocks
    rw [if_pos (by simp [Nat.ne_of_lt hlt])]
  · rintro ⟨bo, hbo, hboid, b1, hb1, hb1id, b2, hb2, hb2id, hlt1, hlt2⟩
    by_cases hlen : ((mergeFound db pid ids).length != ids.length) = true
    · unfold merge_blocks
      rw [if_pos hlen]
    · have hchain : adjacentChain ((mergeFound db pid ids).map (fun (b : Block) => b.index)) = false := by
        by_contra hcon
        have hchain' : adjacentChain ((mergeFound db pid ids).map (fun (b : Block) => b.index)) = true := by
          rcases Bool.eq_false_or_eq_true (adjacentChain ((mergeFound db pid ids).map
            (fun (b : Block) => b.index))) with h | h
          · exact h
          · exact absurd h hcon
        have hmemfound : ∀ c ∈ projBlocks db pid, c.id ∈ ids → c ∈ mergeFound db pid ids := by
          intro c hc hcid
          refine (List.mem_insertionSort blkLe).2 ?_
          refine List.mem_filter_of_mem (List.mem_of_mem_filter hc) ?_
          have hcp := List.of_mem_filter hc
          simp only [beq_iff_eq] at hcp
          simp [hcp, hcid]
        have hx : b1.index ∈ (mergeFound db pid ids).map (fun (b : Block) => b.index) :=
          List.mem_map.2 ⟨b1, hmemfound b1 hb1 hb1id, rfl⟩
        have hy : b2.index ∈ (mergeFound db pid ids).map (fun (b : Block) => b.index) :=
          List.mem_map.2 ⟨b2, hmemfound b2 hb2 hb2id, rfl⟩
        have hj := adjacentChain_between _ hchain' b1.index b2.index bo.index hx hy hlt1 hlt2
        rcases List.mem_map.1 hj with ⟨c, hc, hcidx⟩
        have hcfound := hc
        have hcdb : c ∈ projBlocks db pid := by
          have := (List.mem_insertionSort blkLe).1 hcfound
          have hcdb' : c ∈ db.blocks := List.mem_of_mem_filter this
          have hcp := List.of_mem_filter this
          simp only [Bool.and_eq_true, beq_iff_eq] at hcp
          exact List.mem_filter_of_mem hcdb' (by simp [hcp.1])
        have hcid : c.id ∈ ids := by
          have := (List.mem_insertionSort blkLe).1 hcfound
          have hcp := List.of_mem_filter this
          simp only [Bool.and_eq_true, beq_iff_eq] at hcp
          simpa using hcp.2
        have hcbo : c = bo := List.inj_on_of_nodup_map hkeys hcdb hbo hcidx
        rw [hcbo] at hcid
        exact hboid hcid
      unfold merge_blocks
      rw [if_neg hlen, if_pos (by simp [hchain])]

/-- The third block of `dbM3`. -/
def blkM12 : Block :=
  { id := 12, projectId := 1, index := 2, text := "cc".toList,
    keywords := ["y"], status := BlockStatus.MATCHED }

/-- C5 witness: merging blocks 10 and 12 of `dbM3` fails because block 11
lies between them; merging with the unknown id 99 fails because it is not
found.  Both failures return the unchanged database. -/
theorem C5_merge_adjacency_rejection_witness :
    merge_blocks dbM3 1 [10, 12] = MergeRes.err dbM3 ErrKind.blockMergeError ∧
    merge_blocks dbM3 1 [10, 99] = MergeRes.err dbM3 ErrKind.blockMergeError :=
  ⟨(C5_merge_adjacency_rejection dbM3 1 [10, 12] (by decide) (by decide)).2
      ⟨blkM11, by decide, by decide, blkM10, by decide, by decide,
       blkM12, by decide, by decide, by decide, by decide⟩,
   (C5_merge_adjacency_rejection dbM3 1 [10, 99] (by decide) (by decide)).1
      ⟨99, by decide, by decide⟩⟩

/-- In a table with distinct primary keys, lookup of a member's key finds
that member. -/
theorem find?_of_mem_nodup_id (x : Block) :
    ∀ (l : List Block), x ∈ l → (l.map (fun (b : Block) => b.id)).Nodup →
    l.find? (fun (b : Block) => b.id == x.id) = some x := by
  intro l
  induction l with
  | nil => intro hx; simp at hx
  | cons h t ih =>
    intro hx hnd
    simp only [List.map_cons, List.nodup_cons] at hnd
    rcases List.mem_cons.1 hx with hxh | hxt
    · subst hxh
      exact List.find?_cons_of_pos _ (by simp)
    · have hne : ¬ ((fun (b : Block) => b.id == x.id) h = true) := by
        simp only [beq_iff_eq]
        intro hc
        exact hnd.1 (by rw [hc]; exact List.mem_map.2 ⟨x, hxt, rfl⟩)
      rw [@List.find?_cons_of_neg _ (fun (b : Block) => b.id == x.id) _ _ hne]
      exact ih hxt hnd.2

/-- Every source row appears, renumbered, in the assignment pass. -/
theorem mem_assignIdxFrom_exists (n : Nat) :
    ∀ (l : List Block), ∀ b ∈ l, ∃ k : Int, { b with index := k } ∈ assignIdxFrom n l := by
  intro l
  induction l generalizing n with
  | nil => intro b hb; simp at hb
  | cons x t ih =>
    intro b hb
    rcases List.mem_cons.1 hb with hbx | hbt
    · subst hbx
      exact ⟨(n : Int), List.mem_cons_self _ _⟩
    · rcases ih (n + 1) b hbt with ⟨k, hk⟩
      exact ⟨k, List.mem_cons_of_mem _ hk⟩

/-- Every renumbered row comes from a source row, changed only in its key. -/
theorem assignIdxFrom_src (n : Nat) :
    ∀ (l : List Block), ∀ b' ∈ assignIdxFrom n l, ∃ b ∈ l, ∃ k : Int, b' = { b with index := k } := by
  intro l
  induction l generalizing n with
  | nil => intro b' hb'; simp [assignIdxFrom] at hb'
  | cons x t ih =>
    intro b' hb'
    rcases List.mem_cons.1 hb' with h1 | h2
    · exact ⟨x, List.mem_cons_self x t, (n : Int), h1⟩
    · rcases ih (n + 1) b' h2 with ⟨b, hb, k, hk⟩
      exact ⟨b, List.mem_cons_of_mem x hb, k, hk⟩

/-- C7: for every successful merge of two or more blocks (with distinct
primary keys), the surviving block is the requested block with the lowest
position; its row afterwards carries the merged blocks' texts joined in
position order by a blank line, the first-seen union of their keywords capped
at 10, and status DRAFT; and every other block of the merged set is deleted
together with all of its BlockAsset rows. -/
theorem C7_merge_result (db : DB) (pid : Nat) (ids : List Nat) (dbm : DB) (sid : Nat)
    (hids : (db.blocks.map (fun (b : Block) => b.id)).Nodup)
    (h2 : 2 ≤ ids.length)
    (hok : merge_blocks db pid ids = MergeRes.ok dbm sid) :
    ∃ first rest, mergeFound db pid ids = first :: rest ∧ rest ≠ [] ∧
      sid = first.id ∧ (∀ c ∈ mergeFound db pid ids, first.index ≤ c.index) ∧
      (∃ bs, blockById dbm sid = some bs ∧
        bs.text = joinBlankLine ((first :: rest).map (fun (b : Block) => b.text)) ∧
        bs.keywords = (firstSeenUnion ((first :: rest).map (fun (b : Block) => b.keywords))).take 10 ∧
        bs.status = BlockStatus.DRAFT) ∧
      (∀ b ∈ rest, blockById dbm b.id = none ∧ assetsOf dbm b.id = []) := by
  obtain ⟨first, rest, hfound, hlen, hchain, hdbm, hsid⟩ :=
    merge_blocks_ok_elim db pid ids dbm sid hok
  have hdbnodup : db.blocks.Nodup := List.Nodup.of_map _ hids
  have hinj := List.inj_on_of_nodup_map hids
  have hfoundnodup : (first :: rest).Nodup := by
    rw [← hfound]
    refine (List.Perm.nodup_iff (List.perm_insertionSort blkLe _)).2 ?_
    exact List.Sublist.nodup (List.filter_sublist _) hdbnodup
  have hfoundmem : ∀ c ∈ mergeFound db pid ids, c ∈ db.blocks ∧ c.projectId = pid := by
    intro c hc
    have hcf := (List.mem_insertionSort blkLe).1 hc
    have hcp := List.of_mem_filter hcf
    simp only [Bool.and_eq_true, beq_iff_eq] at hcp
    exact ⟨List.mem_of_mem_filter hcf, hcp.1⟩
  have hfirstdb : first ∈ db.blocks :=
    (hfoundmem first (by rw [hfound]; exact List.mem_cons_self _ _)).1
  have hfirstpid : first.projectId = pid :=
    (hfoundmem first (by rw [hfound]; exact List.mem_cons_self _ _)).2
  have hrestdb : ∀ r ∈ rest, r ∈ db.blocks := by
    intro r hr
    exact (hfoundmem r (by rw [hfound]; exact List.mem_cons_of_mem _ hr)).1
  have hfirstnotrest : ((rest.map (fun (r : Block) => r.id)).contains first.id) = false := by
    by_contra hcon
    have hmem : first.id ∈ rest.map (fun (r : Block) => r.id) := by
      have := Bool.of_not_eq_false hcon
      simpa using this
    rcases List.mem_map.1 hmem with ⟨r, hr, hrid⟩
    have : r = first := hinj (hrestdb r hr) hfirstdb hrid
    rw [List.nodup_cons] at hfoundnodup
    exact hfoundnodup.1 (this ▸ hr)
  -- the survivor's row in the post-mutation state
  have hsurvX : mergeSurvivor first rest ∈ (mergeApply db first rest).blocks := by
    refine List.mem_filterMap.2 ⟨first, hfirstdb, ?_⟩
    rw [if_neg (by rw [hfirstnotrest]; simp), if_pos (by simp)]
  have hsurvR : mergeSurvivor first rest ∈ projBlocks (mergeApply db first rest) pid := by
    refine List.mem_filter_of_mem hsurvX ?_
    have : (mergeSurvivor first rest).projectId = pid := hfirstpid
    simp [this]
  -- distinct primary keys after the mutations
  have hXids : ((mergeApply db first rest).blocks.map (fun (b : Block) => b.id)).Nodup := by
    show ((db.blocks.filterMap _).map (fun (b : Block) => b.id)).Nodup
    rw [List.map_filterMap]
    refine List.Nodup.sublist (filterMap_sublist_map _ (fun (b : Block) => b.id) db.blocks ?_) hids
    intro c hc
    by_cases h1 : ((rest.map (fun (r : Block) => r.id)).contains c.id) = true
    · left
      rw [if_pos h1]
      rfl
    · by_cases hcf : (c.id == first.id) = true
      · right
        rw [if_neg h1, if_pos hcf]
        have : (mergeSurvivor first rest).id = first.id := rfl
        rw [Option.map_some', this]
        congr 1
        exact (by simpa using hcf : c.id = first.id).symm
      · right
        rw [if_neg h1, if_neg hcf]
        rfl
  have hdbmids : (dbm.blocks.map (fun (b : Block) => b.id)).Nodup := by
    rw [hdbm]
    show ((((mergeApply db first rest).blocks.filter _) ++
      assignIdx (projBlocksSorted (mergeApply db first rest) pid)).map
        (fun (b : Block) => b.id)).Nodup
    rw [List.map_append]
    have hassign : (assignIdx (projBlocksSorted (mergeApply db first rest) pid)).map
        (fun (b : Block) => b.id)
        = (projBlocksSorted (mergeApply db first rest) pid).map (fun (b : Block) => b.id) :=
      assignIdxFrom_map_id 0 _
    rw [hassign]
    have hperm1 : (projBlocksSorted (mergeApply db first rest) pid).map (fun (b : Block) => b.id)
        |>.Perm ((projBlocks (mergeApply db first rest) pid).map (fun (b : Block) => b.id)) :=
      List.Perm.map _ (List.perm_insertionSort blkLe _)
    have hperm2 : (((mergeApply db first rest).blocks.filter
          (fun (b : Block) => !(b.projectId == pid))).map (fun (b : Block) => b.id) ++
        (projBlocksSorted (mergeApply db first rest) pid).map (fun (b : Block) => b.id)).Perm
        ((mergeApply db first rest).blocks.map (fun (b : Block) => b.id)) := by
      refine List.Perm.trans (List.Perm.append (List.Perm.refl _) hperm1) ?_
      rw [← List.map_append]
      refine List.Perm.map _ ?_
      have hfl := List.filter_append_perm (fun (b : Block) => !(b.projectId == pid))
        (mergeApply db first rest).blocks
      have hnn : (mergeApply db first rest).blocks.filter
          (fun (x : Block) => !(!(x.projectId == pid)))
          = (mergeApply db first rest).blocks.filter (fun (x : Block) => x.projectId == pid) := by
        simp only [Bool.not_not]
      rw [hnn] at hfl
      exact hfl
    exact (List.Perm.nodup_iff hperm2).2 hXids
  -- sortedness of the query result
  have hsortfound : List.Sorted blkLe (first :: rest) := by
    rw [← hfound]
    exact List.sorted_insertionSort blkLe _
  refine ⟨first, rest, hfound, ?_, hsid, ?_, ?_, ?_⟩
  · intro hc
    rw [hc] at hlen
    simp at hlen
    omega
  · intro c hc
    rw [hfound] at hc
    rcases List.mem_cons.1 hc with h | h
    · rw [h]
    · exact (List.sorted_cons.1 hsortfound).1 c h
  · -- the surviving row
    have hsurvS1 : mergeSurvivor first rest
        ∈ projBlocksSorted (mergeApply db first rest) pid :=
      (List.mem_insertionSort blkLe).2 hsurvR
    obtain ⟨k, hk⟩ := mem_assignIdxFrom_exists 0 _ (mergeSurvivor first rest) hsurvS1
    refine ⟨{ mergeSurvivor first rest with index := k }, ?_, rfl, rfl, rfl⟩
    have hbsmem : ({ mergeSurvivor first rest with index := k } : Block) ∈ dbm.blocks := by
      rw [hdbm]
      exact List.mem_append_right _ hk
    have := find?_of_mem_nodup_id ({ mergeSurvivor first rest with index := k } : Block)
      dbm.blocks hbsmem hdbmids
    rw [blockById, hsid]
    exact this
  · -- the absorbed rows are gone, with their asset links
    intro b hb
    have hbrest : b.id ∈ rest.map (fun (r : Block) => r.id) := List.mem_map.2 ⟨b, hb, rfl⟩
    have hXnone : ∀ w ∈ (mergeApply db first rest).blocks, w.id ≠ b.id := by
      intro w hw
      rcases List.mem_filterMap.1 hw with ⟨z, hz, hfz⟩
      by_cases h1 : ((rest.map (fun (r : Block) => r.id)).contains z.id) = true
      · rw [if_pos h1] at hfz
        exact absurd hfz (by simp)
      · rw [if_neg h1] at hfz
        have hzid : z.id ∉ rest.map (fun (r : Block) => r.id) := by
          intro hc
          exact h1 (by simpa using hc)
        by_cases h2 : (z.id == first.id) = true
        · rw [if_pos h2] at hfz
          cases hfz
          show (mergeSurvivor first rest).id ≠ b.id
          intro hc
          have hfr : first.id ∈ rest.map (fun (r : Block) => r.id) := by
            rw [show first.id = b.id from hc]
            exact hbrest
          have hcontains : ((rest.map (fun (r : Block) => r.id)).contains first.id) = true := by
            simpa using hfr
          rw [hcontains] at hfirstnotrest
          exact absurd hfirstnotrest (by simp)
        · rw [if_neg h2] at hfz
          cases hfz
          intro hc
          exact hzid (by rw [hc]; exact hbrest)
    constructor
    · rw [blockById, List.find?_eq_none]
      intro x hx
      rw [hdbm] at hx
      rcases List.mem_append.1 hx with h | h
      · have hxX : x ∈ (mergeApply db first rest).blocks := List.mem_of_mem_filter h
        simp only [beq_iff_eq]
        exact hXnone x hxX
      · rcases assignIdxFrom_src 0 _ x h with ⟨c, hc, k, hck⟩
        have hcR : c ∈ (mergeApply db first rest).blocks :=
          List.mem_of_mem_filter ((List.mem_insertionSort blkLe).1 hc)
        simp only [beq_iff_eq]
        rw [hck]
        show c.id ≠ b.id
        exact hXnone c hcR
    · rw [hdbm]
      show ((mergeApply db first rest).blockAssets.filter _) = []
      rw [List.filter_eq_nil_iff]
      intro ba hba
      have hbap := List.of_mem_filter hba
      simp only [beq_iff_eq]
      intro hc
      rw [hc] at hbap
      have : (rest.map (fun (r : Block) => r.id)).contains b.id = true := by
        simpa using hbrest
      rw [this] at hbap
      exact absurd hbap (by simp)

/-- C7 witness: merging blocks 11 and 12 of `dbM3` produces `dbM3m`: block 11
survives with joined text "bb\n\ncc", keywords ["x","y"], status DRAFT, and
block 12 is deleted together with its BlockAsset row. -/
theorem C7_merge_result_witness :
    ∃ first rest, mergeFound dbM3 1 [11, 12] = first :: rest ∧ rest ≠ [] ∧
      (11 : Nat) = first.id ∧ (∀ c ∈ mergeFound dbM3 1 [11, 12], first.index ≤ c.index) ∧
      (∃ bs, blockById dbM3m 11 = some bs ∧
        bs.text = joinBlankLine ((first :: rest).map (fun (b : Block) => b.text)) ∧
        bs.keywords = (firstSeenUnion ((first :: rest).map (fun (b : Block) => b.keywords))).take 10 ∧
        bs.status = BlockStatus.DRAFT) ∧
      (∀ b ∈ rest, blockById dbM3m b.id = none ∧ assetsOf dbM3m b.id = []) :=
  C7_merge_result dbM3 1 [11, 12] dbM3m 11 (by decide) (by decide) (by decide)

/-- Deduplication returns only input candidates whose url was not yet seen,
and each one is the first input candidate with its url (given that every
input has a non-empty url). -/
theorem dedupGo_first (seen : List String) :
    ∀ (l : List PAsset), (∀ x ∈ l, x.source_url ≠ "") →
      ∀ a ∈ dedupGo seen l, a.source_url ∉ seen ∧
        l.find? (fun (x : PAsset) => x.source_url == a.source_url) = some a := by
  intro l
  induction l generalizing seen with
  | nil => intro _ a ha; simp [dedupGo] at ha
  | cons x t ih =>
    intro hurl a ha
    by_cases hc : (x.source_url != "" && !(seen.contains x.source_url)) = true
    · rw [dedupGo, if_pos hc] at ha
      have hseen : x.source_url ∉ seen := by
        rcases Bool.and_eq_true_iff.1 hc with ⟨_, h2⟩
        intro hmem
        rw [(by simpa using hmem : seen.contains x.source_url = true)] at h2
        exact absurd h2 (by simp)
      rcases List.mem_cons.1 ha with hax | hat
      · subst hax
        exact ⟨hseen, List.find?_cons_of_pos _ (by simp)⟩
      · have := ih (x.source_url :: seen) (fun y hy => hurl y (List.mem_cons_of_mem x hy)) a hat
        refine ⟨fun hmem => this.1 (List.mem_cons_of_mem _ hmem), ?_⟩
        have hne : a.source_url ≠ x.source_url := by
          intro hcc
          exact this.1 (by rw [← hcc]; exact List.mem_cons_self _ _)
        rw [@List.find?_cons_of_neg _ (fun (y : PAsset) => y.source_url == a.source_url) _ _
          (by simp; exact fun hcc => hne hcc.symm)]
        exact this.2
    · rw [dedupGo, if_neg hc] at ha
      have := ih seen (fun y hy => hurl y (List.mem_cons_of_mem x hy)) a ha
      have hxsu : x.source_url ≠ "" := hurl x (List.mem_cons_self x t)
      have hxseen : x.source_url ∈ seen := by
        by_contra hcc
        exact hc (by simp [hxsu, hcc])
      have hne : a.source_url ≠ x.source_url := by
        intro hcc
        exact this.1 (hcc ▸ hxseen)
      refine ⟨this.1, ?_⟩
      rw [@List.find?_cons_of_neg _ (fun (y : PAsset) => y.source_url == a.source_url) _ _
        (by simp; exact fun hcc => hne hcc.symm)]
      exact this.2

/-- Deduplication yields pairwise distinct urls. -/
theorem dedupGo_pairwise (seen : List String) :
    ∀ (l : List PAsset), (∀ x ∈ l, x.source_url ≠ "") →
      List.Pairwise (fun (a b : PAsset) => a.source_url ≠ b.source_url) (dedupGo seen l) := by
  intro l
  induction l generalizing seen with
  | nil => intro _; simp [dedupGo]
  | cons x t ih =>
    intro hurl
    by_cases hc : (x.source_url != "" && !(seen.contains x.source_url)) = true
    · rw [dedupGo, if_pos hc]
      refine List.Pairwise.cons ?_ (ih (x.source_url :: seen)
        (fun y hy => hurl y (List.mem_cons_of_mem x hy)))
      intro b hb hcc
      have := (dedupGo_first (x.source_url :: seen) t
        (fun y hy => hurl y (List.mem_cons_of_mem x hy)) b hb).1
      exact this (by rw [← hcc]; exact List.mem_cons_self _ _)
    · rw [dedupGo, if_neg hc]
      exact ih seen (fun y hy => hurl y (List.mem_cons_of_mem x hy))

/-- C8: the relevance score is the base 1.0 plus 0.5 for a case-insensitive
title hit, plus 0.3 for a video under video priority, plus 0.1 for an image
without video priority; and the block matcher returns the pooled per-keyword
candidates deduplicated by source_url (each result is the first pooled
candidate carrying its url), sorted by score descending, truncated to
`max_candidates`, with pairwise distinct urls. -/
theorem C8_relevance_and_pipeline (keywords : List String)
    (photos videos : String → List PAsset) (max_candidates : Nat) (video_priority : Bool)
    (hurl : ∀ a ∈ pooled keywords photos videos video_priority, a.source_url ≠ "") :
    (∀ (kw : String) (a : PAsset) (vp : Bool),
      calculate_relevance_score kw a vp
        = 1 + (if substrAt (lowerL kw) (lowerL a.title) = true then (1 : ℚ)/2 else 0)
            + (if vp = true ∧ a.asset_type = "VIDEO" then (3 : ℚ)/10 else 0)
            + (if vp = false ∧ a.asset_type = "IMAGE" then (1 : ℚ)/10 else 0)) ∧
    (match_assets_for_block keywords photos videos max_candidates video_priority).length
        ≤ max_candidates ∧
    List.Pairwise (fun (a b : PAsset) => b.score ≤ a.score)
      (match_assets_for_block keywords photos videos max_candidates video_priority) ∧
    (∀ a ∈ match_assets_for_block keywords photos videos max_candidates video_priority,
      (pooled keywords photos videos video_priority).find?
        (fun (x : PAsset) => x.source_url == a.source_url) = some a) ∧
    List.Pairwise (fun (a b : PAsset) => a.source_url ≠ b.source_url)
      (match_assets_for_block keywords photos videos max_candidates video_priority) := by
  refine ⟨?_, ?_, ?_, ?_, ?_⟩
  · intro kw a vp
    unfold calculate_relevance_score
    by_cases hs : substrAt (lowerL kw) (lowerL a.title) = true
    · cases vp with
      | false =>
        by_cases ht : a.asset_type = "IMAGE"
        · simp [hs, ht]
        · simp [hs, ht, (by simp [ht] : (a.asset_type == "IMAGE") = false)]
      | true =>
        by_cases ht : a.asset_type = "VIDEO"
        · simp [hs, ht]
        · simp [hs, ht, (by simp [ht] : (a.asset_type == "VIDEO") = false)]
    · cases vp with
      | false =>
        by_cases ht : a.asset_type = "IMAGE"
        · simp [hs, ht]
        · simp [hs, ht, (by simp [ht] : (a.asset_type == "IMAGE") = false)]
      | true =>
        by_cases ht : a.asset_type = "VIDEO"
        · simp [hs, ht]
        · simp [hs, ht, (by simp [ht] : (a.asset_type == "VIDEO") = false)]
  · exact List.length_take_le _ _
  · refine List.Pairwise.sublist (List.take_sublist _ _) ?_
    exact List.sorted_insertionSort scoreGe _
  · intro a ha
    have hmem : a ∈ List.insertionSort scoreGe
        (deduplicate_by_url (pooled keywords photos videos video_priority)) :=
      List.mem_of_mem_take ha
    have hdedup : a ∈ deduplicate_by_url (pooled keywords photos videos video_priority) :=
      (List.mem_insertionSort scoreGe).1 hmem
    exact (dedupGo_first [] (pooled keywords photos videos video_priority) hurl a hdedup).2
  · refine List.Pairwise.sublist (List.take_sublist _ _) ?_
    refine (List.Perm.pairwise_iff (fun h hc => h hc.symm)
      (List.perm_insertionSort scoreGe _)).2 ?_
    exact dedupGo_pairwise [] (pooled keywords photos videos video_priority) hurl

/-- Concrete photo search results for the C8 witness. -/
def photosW : String → List PAsset := fun _ =>
  [{ asset_type := "IMAGE", source_url := "u1", title := "a cat", score := 0, matched_keyword := "" }]

/-- Concrete video search results for the C8 witness. -/
def videosW : String → List PAsset := fun _ =>
  [{ asset_type := "VIDEO", source_url := "u2", title := "dog", score := 0, matched_keyword := "" }]

/-- C8 witness: the theorem applied to one keyword with one photo and one
video result under video priority. -/
theorem C8_relevance_and_pipeline_witness :
    (∀ (kw : String) (a : PAsset) (vp : Bool),
      calculate_relevance_score kw a vp
        = 1 + (if substrAt (lowerL kw) (lowerL a.title) = true then (1 : ℚ)/2 else 0)
            + (if vp = true ∧ a.asset_type = "VIDEO" then (3 : ℚ)/10 else 0)
            + (if vp = false ∧ a.asset_type = "IMAGE" then (1 : ℚ)/10 else 0)) ∧
    (match_assets_for_block ["cat"] photosW videosW 10 true).length ≤ 10 ∧
    List.Pairwise (fun (a b : PAsset) => b.score ≤ a.score)
      (match_assets_for_block ["cat"] photosW videosW 10 true) ∧
    (∀ a ∈ match_assets_for_block ["cat"] photosW videosW 10 true,
      (pooled ["cat"] photosW videosW true).find?
        (fun (x : PAsset) => x.source_url == a.source_url) = some a) ∧
    List.Pairwise (fun (a b : PAsset) => a.source_url ≠ b.source_url)
      (match_assets_for_block ["cat"] photosW videosW 10 true) :=
  C8_relevance_and_pipeline ["cat"] photosW videosW 10 true (by decide)
